import Mathlib

/-!
Verification of the KVT in-memory transactional key-value store
(`hugegraph-kvt/kvt/kvt_mem.h`): shallow embedding of the WAL logger,
checkpoint serialization, startup/recovery logic, the process / range-process
engine, batch execution and the catalog, together with theorems about the
documented behaviour.

Byte strings (`std::string` used as raw byte buffers) are modelled as
`List Nat` with each element intended below 256; casts through
`unsigned char` in the source are mirrored by `% 256`.  Machine integers are
`Nat`/`Int` with explicit `% 2^w` where the source wraps.
-/

namespace KVT

/-- Error codes, from `kvt_inc.h` `enum class KVTError`. -/
inductive KVTError where
  | SUCCESS
  | KVT_NOT_INITIALIZED
  | TABLE_ALREADY_EXISTS
  | TABLE_NOT_FOUND
  | INVALID_PARTITION_METHOD
  | TRANSACTION_NOT_FOUND
  | TRANSACTION_ALREADY_RUNNING
  | KEY_NOT_FOUND
  | KEY_IS_DELETED
  | KEY_IS_LOCKED
  | TRANSACTION_HAS_STALE_DATA
  | ONE_SHOT_WRITE_NOT_ALLOWED
  | ONE_SHOT_DELETE_NOT_ALLOWED
  | BATCH_NOT_FULLY_SUCCESS
  | SCAN_LIMIT_REACHED
  | EXT_FUNC_ERROR
  | UNKNOWN_ERROR
  deriving DecidableEq, Repr

/-- Little-endian byte encoding: `leEncode k n` produces `k` bytes, byte `i`
being `(n >> (i*8)) & 0xFF` as in `make_table_key` and the binary writers. -/
def leEncode : Nat → Nat → List Nat
  | 0, _ => []
  | k + 1, n => n % 256 :: leEncode k (n / 256)

/-- Little-endian decode with the `unsigned char` cast of the source
(`parse_table_key`, binary readers): byte `i` contributes `(b mod 256) << (i*8)`. -/
def leDecode : List Nat → Nat
  | [] => 0
  | b :: bs => b % 256 + 256 * leDecode bs

/-- 8-byte little-endian encoding of a `uint64_t`. -/
def u64le (n : Nat) : List Nat := leEncode 8 n

/-- 4-byte little-endian encoding of a `uint32_t`. -/
def u32le (n : Nat) : List Nat := leEncode 4 n

theorem leEncode_length (k n : Nat) : (leEncode k n).length = k := by
  induction k generalizing n with
  | zero => rfl
  | succ k ih => simp [leEncode, ih]

theorem leDecode_leEncode (k n : Nat) : leDecode (leEncode k n) = n % 256 ^ k := by
  induction k generalizing n with
  | zero => simp [leEncode, leDecode, Nat.mod_one]
  | succ k ih =>
    simp only [leEncode, leDecode, ih, pow_succ, Nat.mod_mod]
    rw [mul_comm (256 ^ k) 256, Nat.mod_mul]

theorem leDecode_leEncode_of_lt {k n : Nat} (h : n < 256 ^ k) :
    leDecode (leEncode k n) = n := by
  rw [leDecode_leEncode, Nat.mod_eq_of_lt h]

/-- Lexicographic strict order on byte strings, with the `unsigned char`
comparison used by `std::string` (memcmp); a strict prefix is smaller. -/
def lexLt : List Nat → List Nat → Bool
  | [], [] => false
  | [], _ :: _ => true
  | _ :: _, [] => false
  | a :: as, b :: bs =>
    if a % 256 < b % 256 then true
    else if b % 256 < a % 256 then false
    else lexLt as bs

/-! ## Table-key encoding (`KVTWrapper::make_table_key` / `parse_table_key`) -/

/-- `KVTWrapper::make_table_key`: an empty key is encoded as the 8-byte
little-endian value `table_id + 1` (wrapping `uint64_t` arithmetic); a
non-empty key is the 8-byte little-endian `table_id` followed by the key. -/
def make_table_key (table_id : Nat) (key : List Nat) : List Nat :=
  if key = [] then
    u64le (table_id + 1)
  else
    u64le table_id ++ key

/-- `KVTWrapper::parse_table_key`: fewer than 8 bytes yields `(0, empty)`;
exactly 8 bytes is the empty-key special case (decode and subtract 1 with
`uint64_t` wrap-around); otherwise split after the 8-byte table id. -/
def parse_table_key (table_key : List Nat) : Nat × List Nat :=
  if table_key.length < 8 then (0, [])
  else if table_key.length = 8 then
    ((leDecode (table_key.take 8) + 2 ^ 64 - 1) % 2 ^ 64, [])
  else
    (leDecode (table_key.take 8), table_key.drop 8)

/-! ## Startup checkpoint/log id consistency (`KVTWrapper::startup`) -/

/-- The directory scans of `startup`: the highest id found, starting from the
sentinel `-1` and taking the maximum over all files of the kind. -/
def highest_id (ids : List Nat) : Int :=
  ids.foldl (fun acc i => max acc (i : Int)) (-1)

/-- The id-consistency portion of `KVTWrapper::startup`, fed with the list of
checkpoint ids and log ids found in the data directory.  `none` models the
fatal `exit(1)` on "Log file id is greater than checkpoint id + 1, Corrupted
Data"; `some n` is the checkpoint id `check_point_id_` the process resumes
with (file-content failures of `load_checkpoint`/`replay_log` are modelled
separately). -/
def startup_check (ckpt_ids log_ids : List Nat) : Option Nat :=
  if highest_id log_ids ≠ -1 ∧ highest_id ckpt_ids ≠ -1 ∧
      highest_id log_ids > highest_id ckpt_ids + 1 then none
  else if highest_id ckpt_ids = -1 then some 1
  else some ((highest_id ckpt_ids).toNat + 1)

theorem foldl_max_le (l : List Nat) (acc : Int) :
    acc ≤ l.foldl (fun a i => max a (i : Int)) acc := by
  induction l generalizing acc with
  | nil => exact le_refl _
  | cons x t ih => exact le_trans (le_max_left acc x) (ih _)

theorem highest_id_nonneg {l : List Nat} (h : l ≠ []) : 0 ≤ highest_id l := by
  cases l with
  | nil => exact absurd rfl h
  | cons x t =>
    have : (0 : Int) ≤ max (-1) (x : Int) := le_max_of_le_right (Int.ofNat_nonneg x)
    exact le_trans this (foldl_max_le t _)

theorem highest_id_ne_neg_one_iff {l : List Nat} : highest_id l ≠ -1 ↔ l ≠ [] := by
  constructor
  · intro h hl; exact h (hl ▸ rfl)
  · intro h he
    have := highest_id_nonneg h
    omega

/-! ## Theorems for the table-key encoding and startup claims -/

/-- C10: for every `table_id < 2^64`, `parse_table_key` inverts
`make_table_key` exactly (the empty key travelling through the 8-byte
`table_id + 1` special case); but the sentinel-ordering half of the claim is
refuted by the code itself: for `table_id = 255` the encoded empty key
`[0,1,0,…]` is lexicographically *smaller* than the encoding `[255,0,…,97]`
of the non-empty key `"a"`, contradicting the source comment that the empty
key is "treated as largest in standard string comparison". -/
theorem table_key_roundtrip_and_sentinel_order :
    (∀ t k, t < 2 ^ 64 → parse_table_key (make_table_key t k) = (t, k)) ∧
    lexLt (make_table_key 255 []) (make_table_key 255 [97]) = true := by
  constructor
  · intro t k ht
    cases k with
    | nil =>
      have hlen : (u64le (t + 1)).length = 8 := leEncode_length 8 (t + 1)
      have hmk : make_table_key t [] = u64le (t + 1) := by simp [make_table_key]
      have htake : (u64le (t + 1)).take 8 = u64le (t + 1) :=
        List.take_of_length_le (le_of_eq hlen)
      have hdec : leDecode (u64le (t + 1)) = (t + 1) % 2 ^ 64 := by
        simpa using leDecode_leEncode 8 (t + 1)
      rw [hmk]
      unfold parse_table_key
      rw [hlen, if_neg (by omega), if_pos rfl, htake, hdec]
      refine Prod.ext ?_ rfl
      show ((t + 1) % 2 ^ 64 + 2 ^ 64 - 1) % 2 ^ 64 = t
      omega
    | cons a as =>
      have hlen : (u64le t).length = 8 := leEncode_length 8 t
      have hmk : make_table_key t (a :: as) = u64le t ++ a :: as := by
        simp [make_table_key]
      have htake : (u64le t ++ a :: as).take 8 = u64le t := by
        rw [← hlen]; exact List.take_left _ _
      have hdrop : (u64le t ++ a :: as).drop 8 = a :: as := by
        rw [← hlen]; exact List.drop_left _ _
      have hl : (u64le t ++ a :: as).length = 8 + (as.length + 1) := by
        simp [List.length_append, hlen]
      have ht' : t < 256 ^ 8 := by
        have h : (2 : ℕ) ^ 64 = 256 ^ 8 := by norm_num
        omega
      have hdec : leDecode (u64le t) = t := leDecode_leEncode_of_lt ht'
      rw [hmk]
      unfold parse_table_key
      rw [if_neg (by omega), if_neg (by omega), htake, hdrop, hdec]
  · decide

/-- Closed witness for the table-key round-trip: the concrete instance
`table_id = 255`, key `"a"`. -/
theorem table_key_roundtrip_witness :
    parse_table_key (make_table_key 255 [97]) = (255, [97]) :=
  table_key_roundtrip_and_sentinel_order.1 255 [97] (by norm_num)

/-- C1 counterexample: with highest checkpoint id `C = 1` and highest log id
`L = 2` we have `L > C`, which the claim calls fatal corruption, yet
`startup` proceeds and resumes at checkpoint id 2. -/
theorem startup_not_fatal_when_log_exceeds_ckpt :
    startup_check [1] [2] = some 2 ∧ highest_id [2] > highest_id [1] := by
  decide

/-- C1 (amended): startup terminates as fatally corrupted exactly when a
checkpoint file and a log file both exist and the highest log id exceeds the
highest checkpoint id *plus one*; otherwise it proceeds (resuming at
checkpoint `C + 1`, or 1 when no checkpoint exists). -/
theorem startup_fatal_iff (ckpts logs : List Nat) :
    startup_check ckpts logs = none ↔
      ckpts ≠ [] ∧ logs ≠ [] ∧ highest_id logs > highest_id ckpts + 1 := by
  unfold startup_check
  by_cases hf : highest_id logs ≠ -1 ∧ highest_id ckpts ≠ -1 ∧
      highest_id logs > highest_id ckpts + 1
  · rw [if_pos hf]
    obtain ⟨h1, h2, h3⟩ := hf
    rw [highest_id_ne_neg_one_iff] at h1 h2
    simp [h1, h2, h3]
  · rw [if_neg hf]
    constructor
    · intro h
      split at h <;> simp at h
    · rintro ⟨h1, h2, h3⟩
      exact absurd ⟨highest_id_ne_neg_one_iff.mpr h2,
        highest_id_ne_neg_one_iff.mpr h1, h3⟩ hf

/-- Closed witness for the amended startup claim: checkpoint 3 with logs 2
and 5 present is fatal. -/
theorem startup_fatal_witness : startup_check [3] [2, 5] = none := by
  rw [startup_fatal_iff]
  refine ⟨by simp, by simp, by decide⟩

/-! ## WAL logger (`KVTLogger`) -/

/-- `KVTLogger::calculate_checksum`: rolling hash `c ← c*31 + byte` over the
payload with `uint32_t` wrap-around; bytes pass through the
`static_cast<unsigned char>` of the source. -/
def calculate_checksum (data : List Nat) : Nat :=
  data.foldl (fun c b => (c * 31 + b % 256) % 2 ^ 32) 0

theorem calculate_checksum_foldl_lt (l : List Nat) (acc : Nat) (h : acc < 2 ^ 32) :
    l.foldl (fun c b => (c * 31 + b % 256) % 2 ^ 32) acc < 2 ^ 32 := by
  induction l generalizing acc with
  | nil => exact h
  | cons x t ih => exact ih _ (Nat.mod_lt _ (by norm_num))

theorem calculate_checksum_lt (data : List Nat) : calculate_checksum data < 2 ^ 32 :=
  calculate_checksum_foldl_lt data 0 (by norm_num)

/-- `KVTLogger::flush_log`, binary mode: `ID(8) LENGTH(4) CHECKSUM(4) PAYLOAD`;
the length field is the `uint32_t` cast of the payload length. -/
def flush_log_binary (log_id : Nat) (payload : List Nat) : List Nat :=
  u64le log_id ++ u32le payload.length ++ u32le (calculate_checksum payload) ++ payload

/-- `KVTLogger::read_entry_from_file`, binary branch: read the 16-byte header,
then `payload_length` payload bytes, failing (`none`) when the stream runs
out or when the recomputed checksum differs from the stored one. -/
def read_entry_binary (file : List Nat) : Option (Nat × List Nat) :=
  if file.length < 8 then none
  else if (file.drop 8).length < 4 then none
  else if (file.drop 12).length < 4 then none
  else if (file.drop 16).length < leDecode ((file.drop 8).take 4) then none
  else if calculate_checksum ((file.drop 16).take (leDecode ((file.drop 8).take 4)))
      = leDecode ((file.drop 12).take 4) then
    some (leDecode (file.take 8), (file.drop 16).take (leDecode ((file.drop 8).take 4)))
  else none

/-- Lowercase hex digit character, as produced by `std::hex` with
`setfill('0')` in `KVTLogger::to_hex_string`. -/
def hexDigitChar (n : Nat) : Nat := if n < 10 then 48 + n else 87 + n

/-- `KVTLogger::to_hex_string`: bytes outside the printable range
`[0x20, 0x7E]` become a backslash followed by two lowercase hex digits;
printable bytes are emitted verbatim. -/
def to_hex_string : List Nat → List Nat
  | [] => []
  | c :: rest =>
    (if c % 256 < 32 ∨ 126 < c % 256 then
      [92, hexDigitChar (c % 256 / 16), hexDigitChar (c % 256 % 16)]
    else
      [c % 256]) ++ to_hex_string rest

/-- Value of a hex digit character as parsed by `std::stoi(·, nullptr, 16)`
(non-hex characters, on which `stoi` would throw, are given value 0; the
theorems below never reach that case). -/
def hexVal (c : Nat) : Nat :=
  if 48 ≤ c ∧ c ≤ 57 then c - 48
  else if 97 ≤ c ∧ c ≤ 102 then c - 87
  else if 65 ≤ c ∧ c ≤ 70 then c - 55
  else 0

/-- `KVTLogger::from_hex_string`: a backslash with at least two following
characters is decoded as a hex escape (consuming three characters); anything
else — including a backslash fewer than three characters from the end — is
copied verbatim.  The `static_cast<char>` of the decoded value is the
`% 256`. -/
def from_hex_string : List Nat → List Nat
  | [] => []
  | [c] => [c]
  | [c, d] => [c, d]
  | c :: d1 :: d2 :: rest =>
    if c = 92 then
      (hexVal d1 * 16 + hexVal d2) % 256 :: from_hex_string rest
    else
      c :: from_hex_string (d1 :: d2 :: rest)

/-- Decimal digit characters of `n`, most significant first, as printed by
`operator<<` on an unsigned integer (fuel-indexed for structural recursion;
`fuel = n` always suffices). -/
def decDigitsAux : Nat → Nat → List Nat
  | 0, n => [48 + n % 10]
  | fuel + 1, n => if n < 10 then [48 + n % 10] else decDigitsAux fuel (n / 10) ++ [48 + n % 10]

def decDigits (n : Nat) : List Nat := decDigitsAux n n

/-- Maximal run of decimal digits, accumulating the parsed value: the core of
`istream::operator>>` into an unsigned integer. -/
def parseNatAux : List Nat → Nat → Nat × List Nat
  | [], acc => (acc, [])
  | c :: rest, acc =>
    if 48 ≤ c ∧ c ≤ 57 then parseNatAux rest (acc * 10 + (c - 48)) else (acc, c :: rest)

/-- Whitespace skipped by formatted stream extraction. -/
def skipSpaces (s : List Nat) : List Nat :=
  s.dropWhile (fun c => c = 32 ∨ c = 9 ∨ c = 10 ∨ c = 13)

/-- `iss >> n` for an unsigned integer: skip whitespace, then require at least
one digit; `none` models extraction failure. -/
def readNat (s : List Nat) : Option (Nat × List Nat) :=
  match skipSpaces s with
  | [] => none
  | c :: rest =>
    if 48 ≤ c ∧ c ≤ 57 then some (parseNatAux (c :: rest) 0) else none

/-- `KVTLogger::flush_log`, text mode: `ID LENGTH CHECKSUM PAYLOAD\n` with the
payload hex-escaped; the length field is the `uint32_t` cast. -/
def flush_log_text (log_id : Nat) (payload : List Nat) : List Nat :=
  decDigits log_id ++ 32 :: decDigits (payload.length % 2 ^ 32) ++
    32 :: decDigits (calculate_checksum payload) ++
    32 :: to_hex_string payload ++ [10]

/-- `KVTLogger::read_entry_from_file`, text branch: `getline`, parse the three
header integers, strip one leading space, hex-decode the payload and verify
the checksum.  The parsed length field is not used. -/
def read_entry_text (file : List Nat) : Option (Nat × List Nat) :=
  if file.isEmpty then none
  else
    match readNat (file.takeWhile (fun c => c ≠ 10)) with
    | none => none
    | some (log_id, r1) =>
      match readNat r1 with
      | none => none
      | some (_payload_length, r2) =>
        match readNat r2 with
        | none => none
        | some (checksum, r3) =>
          if calculate_checksum (from_hex_string (if r3.headD 0 = 32 then r3.tail else r3))
              = checksum then
            some (log_id, from_hex_string (if r3.headD 0 = 32 then r3.tail else r3))
          else none

/-! ### Helper lemmas for the logger round trips -/

theorem take_append_of_length {α : Type} {a : List α} (b : List α) {n : Nat}
    (h : a.length = n) : (a ++ b).take n = a := by
  rw [← h]; exact List.take_left _ _

theorem drop_append_of_length {α : Type} {a : List α} (b : List α) {n : Nat}
    (h : a.length = n) : (a ++ b).drop n = b := by
  rw [← h]; exact List.drop_left _ _

theorem leDecode_u64le {n : Nat} (h : n < 2 ^ 64) : leDecode (u64le n) = n := by
  have h' : n < 256 ^ 8 := by
    have : (2 : ℕ) ^ 64 = 256 ^ 8 := by norm_num
    omega
  exact leDecode_leEncode_of_lt h'

theorem leDecode_u32le {n : Nat} (h : n < 2 ^ 32) : leDecode (u32le n) = n := by
  have h' : n < 256 ^ 4 := by
    have : (2 : ℕ) ^ 32 = 256 ^ 4 := by norm_num
    omega
  exact leDecode_leEncode_of_lt h'

theorem decDigitsAux_ne_nil (fuel n : Nat) : decDigitsAux fuel n ≠ [] := by
  cases fuel with
  | zero => simp [decDigitsAux]
  | succ f =>
    unfold decDigitsAux
    split
    · simp
    · simp

theorem decDigitsAux_digits (fuel n : Nat) :
    ∀ c ∈ decDigitsAux fuel n, 48 ≤ c ∧ c ≤ 57 := by
  induction fuel generalizing n with
  | zero =>
    intro c hc
    simp [decDigitsAux] at hc
    have := Nat.mod_lt n (show 0 < 10 by norm_num)
    omega
  | succ f ih =>
    intro c hc
    unfold decDigitsAux at hc
    split at hc
    · simp at hc
      have := Nat.mod_lt n (show 0 < 10 by norm_num)
      omega
    · rw [List.mem_append] at hc
      rcases hc with hc | hc
      · exact ih _ c hc
      · simp at hc
        have := Nat.mod_lt n (show 0 < 10 by norm_num)
        omega

theorem parseNatAux_decDigitsAux (fuel : Nat) :
    ∀ n rest acc, n ≤ fuel →
      parseNatAux (decDigitsAux fuel n ++ rest) acc
        = parseNatAux rest (acc * 10 ^ (decDigitsAux fuel n).length + n) := by
  induction fuel with
  | zero =>
    intro n rest acc hn
    interval_cases n
    simp [decDigitsAux, parseNatAux]
  | succ f ih =>
    intro n rest acc hn
    by_cases h10 : n < 10
    · unfold decDigitsAux
      rw [if_pos h10]
      have hd : 48 ≤ 48 + n % 10 ∧ 48 + n % 10 ≤ 57 := by
        have := Nat.mod_lt n (show 0 < 10 by norm_num)
        omega
      simp only [List.cons_append, List.nil_append, parseNatAux, if_pos hd,
        List.length_cons, List.length_nil]
      congr 1
      have : n % 10 = n := Nat.mod_eq_of_lt h10
      omega
    · unfold decDigitsAux
      rw [if_neg h10]
      rw [List.append_assoc]
      rw [ih (n / 10) _ acc (by omega)]
      have hd : 48 ≤ 48 + n % 10 ∧ 48 + n % 10 ≤ 57 := by
        have := Nat.mod_lt n (show 0 < 10 by norm_num)
        omega
      simp only [List.cons_append, List.nil_append, parseNatAux, if_pos hd,
        List.length_append, List.length_cons, List.length_nil]
      congr 1
      have hds : 48 + n % 10 - 48 = n % 10 := by omega
      rw [hds, pow_succ, ← Nat.mul_assoc]
      have hdm : 10 * (n / 10) + n % 10 = n := Nat.div_add_mod n 10
      omega

theorem parseNatAux_non_digit {c : Nat} (rest : List Nat) (acc : Nat)
    (h : ¬(48 ≤ c ∧ c ≤ 57)) : parseNatAux (c :: rest) acc = (acc, c :: rest) := by
  simp [parseNatAux, h]

theorem readNat_decDigits_space (n : Nat) (rest : List Nat) :
    readNat (decDigits n ++ 32 :: rest) = some (n, 32 :: rest) := by
  obtain ⟨c, cs, hcons⟩ := List.exists_cons_of_ne_nil (decDigitsAux_ne_nil n n)
  have hcd : 48 ≤ c ∧ c ≤ 57 := by
    apply decDigitsAux_digits n n
    rw [hcons]; simp
  unfold readNat skipSpaces
  rw [show decDigits n = c :: cs from hcons, List.cons_append]
  rw [List.dropWhile_cons]
  rw [if_neg (by simp; omega)]
  show (if 48 ≤ c ∧ c ≤ 57 then some (parseNatAux (c :: (cs ++ 32 :: rest)) 0)
    else none) = some (n, 32 :: rest)
  rw [if_pos hcd]
  rw [← List.cons_append, ← hcons]
  rw [parseNatAux_decDigitsAux n n _ 0 (le_refl n)]
  rw [parseNatAux_non_digit _ _ (by omega)]
  simp

theorem readNat_cons_space (l : List Nat) : readNat (32 :: l) = readNat l := by
  unfold readNat skipSpaces
  rw [List.dropWhile_cons, if_pos (by simp)]

theorem takeWhile_ne10_append (A rest : List Nat) (h : ∀ c ∈ A, c ≠ 10) :
    (A ++ 10 :: rest).takeWhile (fun c => c ≠ 10) = A := by
  induction A with
  | nil => simp
  | cons a t ih =>
    rw [List.cons_append, List.takeWhile_cons, if_pos (by simpa using h a (by simp))]
    rw [ih (fun c hc => h c (by simp [hc]))]

theorem hexVal_hexDigitChar {x : Nat} (h : x < 16) : hexVal (hexDigitChar x) = x := by
  unfold hexVal hexDigitChar
  split_ifs <;> omega

theorem from_hex_cons_of_ne {c : Nat} (l : List Nat) (h : c ≠ 92) :
    from_hex_string (c :: l) = c :: from_hex_string l := by
  match l with
  | [] => rfl
  | [d] => rfl
  | d1 :: d2 :: rest => simp [from_hex_string, h]

theorem from_hex_to_hex (p : List Nat) (hb : ∀ b ∈ p, b < 256) (hbs : 92 ∉ p) :
    from_hex_string (to_hex_string p) = p := by
  induction p with
  | nil => rfl
  | cons b rest ih =>
    have hb' : b < 256 := hb b (by simp)
    have hmod : b % 256 = b := Nat.mod_eq_of_lt hb'
    have ihr : from_hex_string (to_hex_string rest) = rest :=
      ih (fun x hx => hb x (by simp [hx])) (fun hx => hbs (by simp [hx]))
    rw [to_hex_string]
    by_cases hesc : b % 256 < 32 ∨ 126 < b % 256
    · rw [if_pos hesc, List.cons_append, List.cons_append, List.cons_append,
        List.nil_append]
      show from_hex_string (92 :: hexDigitChar (b % 256 / 16) ::
        hexDigitChar (b % 256 % 16) :: to_hex_string rest) = b :: rest
      rw [from_hex_string, if_pos rfl]
      rw [hexVal_hexDigitChar (by omega), hexVal_hexDigitChar (by omega)]
      rw [ihr, hmod]
      congr 1
      omega
    · rw [if_neg hesc, List.cons_append, List.nil_append, hmod]
      rw [from_hex_cons_of_ne _ (fun hc => hbs (by simp [hc]))]
      rw [ihr]

theorem to_hex_chars (p : List Nat) : ∀ c ∈ to_hex_string p, 32 ≤ c ∧ c ≤ 126 := by
  induction p with
  | nil => intro c hc; simp [to_hex_string] at hc
  | cons b rest ih =>
    intro c hc
    rw [to_hex_string, List.mem_append] at hc
    rcases hc with hc | hc
    · have h16a : b % 256 / 16 < 16 := by omega
      have h16b : b % 256 % 16 < 16 := by omega
      split_ifs at hc with hesc
      · simp at hc
        rcases hc with hc | hc | hc
        · omega
        · subst hc; unfold hexDigitChar; split_ifs <;> omega
        · subst hc; unfold hexDigitChar; split_ifs <;> omega
      · simp at hc
        subst hc
        omega
    · exact ih c hc

/-! ### C4: WAL record round trip -/

/-- C4 (amended): a WAL record written in binary framing always reads back
with the original payload bytes and a matching checksum; a record written in
text framing reads back correctly whenever the payload contains no backslash
byte (`0x5c`).  (The unamended claim fails in text framing: a literal
backslash is emitted verbatim by `to_hex_string` and then misinterpreted as a
hex escape by `from_hex_string`.) -/
theorem log_record_roundtrip :
    (∀ log_id payload, log_id < 2 ^ 64 → payload.length < 2 ^ 32 →
      read_entry_binary (flush_log_binary log_id payload) = some (log_id, payload)) ∧
    (∀ log_id payload, (∀ b ∈ payload, b < 256) → 92 ∉ payload →
      read_entry_text (flush_log_text log_id payload) = some (log_id, payload)) := by
  constructor
  · intro id p hid hlen
    have h8 : (u64le id).length = 8 := leEncode_length 8 id
    have h4L : (u32le p.length).length = 4 := leEncode_length 4 _
    have h4c : (u32le (calculate_checksum p)).length = 4 := leEncode_length 4 _
    have hflush : flush_log_binary id p
        = u64le id ++ (u32le p.length ++ (u32le (calculate_checksum p) ++ p)) := by
      simp [flush_log_binary, List.append_assoc]
    rw [hflush]
    set F := u64le id ++ (u32le p.length ++ (u32le (calculate_checksum p) ++ p)) with hF
    have hFlen : F.length = 16 + p.length := by
      simp only [hF, List.length_append, h8, h4L, h4c]
      omega
    have htk8 : F.take 8 = u64le id := take_append_of_length _ h8
    have hdp8 : F.drop 8 = u32le p.length ++ (u32le (calculate_checksum p) ++ p) :=
      drop_append_of_length _ h8
    have hdp12 : F.drop 12 = u32le (calculate_checksum p) ++ p := by
      rw [show (12 : ℕ) = 8 + 4 from rfl, ← List.drop_drop, hdp8]
      exact drop_append_of_length _ h4L
    have hdp16 : F.drop 16 = p := by
      rw [show (16 : ℕ) = 12 + 4 from rfl, ← List.drop_drop, hdp12]
      exact drop_append_of_length _ h4c
    have hdecL : leDecode ((F.drop 8).take 4) = p.length := by
      rw [hdp8, take_append_of_length _ h4L]
      exact leDecode_u32le hlen
    have hdecC : leDecode ((F.drop 12).take 4) = calculate_checksum p := by
      rw [hdp12, take_append_of_length _ h4c]
      exact leDecode_u32le (calculate_checksum_lt p)
    unfold read_entry_binary
    rw [if_neg (by omega), if_neg (by rw [List.length_drop]; omega),
      if_neg (by rw [List.length_drop]; omega), hdecL, hdecC, hdp16, htk8]
    rw [if_neg (by omega)]
    rw [List.take_length, if_pos rfl, leDecode_u64le hid]
  · intro id p hb hbs
    have hhex : from_hex_string (to_hex_string p) = p := from_hex_to_hex p hb hbs
    have hA : ∀ c ∈ decDigits id ++ 32 :: (decDigits (p.length % 2 ^ 32) ++
        32 :: (decDigits (calculate_checksum p) ++ 32 :: to_hex_string p)), ¬(c = 10) := by
      intro c hc
      simp only [List.mem_append, List.mem_cons] at hc
      rcases hc with hc | hc | hc | hc | hc | hc
      · have := decDigitsAux_digits id id c hc; omega
      · omega
      · have := decDigitsAux_digits _ _ c hc; omega
      · omega
      · have := decDigitsAux_digits _ _ c hc; omega
      · rcases hc with hc | hc
        · omega
        · have := to_hex_chars p c hc; omega
    have hfile : flush_log_text id p
        = (decDigits id ++ 32 :: (decDigits (p.length % 2 ^ 32) ++
            32 :: (decDigits (calculate_checksum p) ++ 32 :: to_hex_string p))) ++
          10 :: [] := by
      simp [flush_log_text, List.append_assoc]
    rw [hfile]
    set A := decDigits id ++ 32 :: (decDigits (p.length % 2 ^ 32) ++
      32 :: (decDigits (calculate_checksum p) ++ 32 :: to_hex_string p)) with hAdef
    have hne : (A ++ 10 :: []).isEmpty = false := by
      obtain ⟨c, cs, hcons⟩ := List.exists_cons_of_ne_nil (decDigitsAux_ne_nil id id)
      simp [hAdef, hcons]
    have htw : (A ++ 10 :: []).takeWhile (fun c => c ≠ 10) = A :=
      takeWhile_ne10_append A [] hA
    unfold read_entry_text
    rw [if_neg (by rw [hne]; simp), htw, hAdef]
    simp only [readNat_decDigits_space, readNat_cons_space]
    simp [hhex]

/-- Closed witness for the record round trip: binary and text framings at a
concrete record. -/
theorem log_record_roundtrip_witness :
    read_entry_binary (flush_log_binary 1 [65, 0, 200]) = some (1, [65, 0, 200]) ∧
    read_entry_text (flush_log_text 1 [65, 0, 200]) = some (1, [65, 0, 200]) :=
  ⟨log_record_roundtrip.1 1 [65, 0, 200] (by norm_num) (by norm_num),
   log_record_roundtrip.2 1 [65, 0, 200] (by decide) (by decide)⟩

/-- C4 counterexample: in text framing, the payload `"\ab"` (bytes
`[92, 97, 98]`) is emitted verbatim, read back as the single byte `0xAB` by
the hex decoder, and then rejected by the checksum comparison — the record
does not read back as its original payload. -/
theorem log_record_text_backslash_fails :
    read_entry_text (flush_log_text 1 [92, 97, 98]) = none := by decide

/-! ## WAL replay (`KVTWrapper::replay_log`)

The replay loop is parameterized by `proc`, the embedding of the virtual
dispatch into `process_log_entry` on the recovered payload (`none` = entry
processing failed, aborting replay). -/

/-- The binary while-loop of `KVTWrapper::replay_log`: a failed read of the
8-byte record id is the clean `break`; failed reads of the length, checksum
or payload fields are the "Corrupt log entry" errors; a checksum mismatch is
an error; otherwise the payload is processed and the loop continues. -/
def replay_log_binary {σ : Type} (proc : List Nat → σ → Option σ)
    (file : List Nat) (s : σ) : Option σ :=
  if file.length < 8 then some s
  else if (file.drop 8).length < 4 then none
  else if (file.drop 12).length < 4 then none
  else if (file.drop 16).length < leDecode ((file.drop 8).take 4) then none
  else if calculate_checksum ((file.drop 16).take (leDecode ((file.drop 8).take 4)))
      ≠ leDecode ((file.drop 12).take 4) then none
  else match proc ((file.drop 16).take (leDecode ((file.drop 8).take 4))) s with
    | none => none
    | some s2 => replay_log_binary proc ((file.drop 16).drop (leDecode ((file.drop 8).take 4))) s2
termination_by file.length
decreasing_by
  simp only [List.length_drop]
  omega

theorem dropWhile_length_le {α : Type} (p : α → Bool) (l : List α) :
    (l.dropWhile p).length ≤ l.length := by
  induction l with
  | nil => simp
  | cons a t ih =>
    rw [List.dropWhile_cons]
    split
    · exact le_trans ih (by simp)
    · simp

/-- `KVTWrapper::replay_log_text`: line-by-line replay; empty lines are
skipped, header parse failures and checksum mismatches abort. -/
def replay_log_text {σ : Type} (proc : List Nat → σ → Option σ) :
    List Nat → σ → Option σ
  | [], s => some s
  | c :: t, s =>
    if (c :: t).takeWhile (fun x => x ≠ 10) = [] then
      replay_log_text proc (((c :: t).dropWhile (fun x => x ≠ 10)).drop 1) s
    else
      match readNat ((c :: t).takeWhile (fun x => x ≠ 10)) with
      | none => none
      | some (_log_id, r1) =>
        match readNat r1 with
        | none => none
        | some (_payload_length, r2) =>
          match readNat r2 with
          | none => none
          | some (checksum, r3) =>
            if calculate_checksum (from_hex_string (if r3.headD 0 = 32 then r3.tail else r3))
                ≠ checksum then none
            else
              match proc (from_hex_string (if r3.headD 0 = 32 then r3.tail else r3)) s with
              | none => none
              | some s2 => replay_log_text proc (((c :: t).dropWhile (fun x => x ≠ 10)).drop 1) s2
termination_by file => file.length
decreasing_by
  all_goals
    simp only [List.length_drop]
    have := dropWhile_length_le (fun x => decide (x ≠ 10)) (c :: t)
    simp at this ⊢
    omega

/-- The format auto-detection of `KVTWrapper::replay_log`: a decimal digit
among the first (up to) 8 bytes selects the text parser.  (Bytes ≥ 0x80 are
negative as `char` and never satisfy `'0' <= c && c <= '9'`.) -/
def is_text_format (file : List Nat) : Bool :=
  (file.take 8).any (fun c => 48 ≤ c % 256 ∧ c % 256 ≤ 57)

/-- `KVTWrapper::replay_log`: detect the framing, then replay. -/
def replay_log {σ : Type} (proc : List Nat → σ → Option σ)
    (file : List Nat) (s : σ) : Option σ :=
  if is_text_format file then replay_log_text proc file s
  else replay_log_binary proc file s

/-- Byte image of a sequence of binary WAL records. -/
def encodeRecords : List (Nat × List Nat) → List Nat
  | [] => []
  | (id, p) :: rest => flush_log_binary id p ++ encodeRecords rest

/-- Sequential processing of the payloads of a record list, stopping at the
first failure — the reference behaviour of a replay that never sees a framing
problem. -/
def procFold {σ : Type} (proc : List Nat → σ → Option σ) :
    List (List Nat) → σ → Option σ
  | [], s => some s
  | p :: ps, s =>
    match proc p s with
    | none => none
    | some s2 => procFold proc ps s2

theorem replay_binary_cons {σ : Type} (proc : List Nat → σ → Option σ)
    (id : Nat) (p rest : List Nat) (s : σ) (hlen : p.length < 2 ^ 32) :
    replay_log_binary proc (flush_log_binary id p ++ rest) s
      = match proc p s with
        | none => none
        | some s2 => replay_log_binary proc rest s2 := by
  have h8 : (u64le id).length = 8 := leEncode_length 8 id
  have h4L : (u32le p.length).length = 4 := leEncode_length 4 _
  have h4c : (u32le (calculate_checksum p)).length = 4 := leEncode_length 4 _
  have hflush : flush_log_binary id p ++ rest
      = u64le id ++ (u32le p.length ++ (u32le (calculate_checksum p) ++ (p ++ rest))) := by
    simp [flush_log_binary, List.append_assoc]
  rw [hflush]
  set F := u64le id ++ (u32le p.length ++ (u32le (calculate_checksum p) ++ (p ++ rest)))
    with hF
  have hFlen : F.length = 16 + p.length + rest.length := by
    simp only [hF, List.length_append, h8, h4L, h4c]
    omega
  have hdp8 : F.drop 8 = u32le p.length ++ (u32le (calculate_checksum p) ++ (p ++ rest)) :=
    drop_append_of_length _ h8
  have hdp12 : F.drop 12 = u32le (calculate_checksum p) ++ (p ++ rest) := by
    rw [show (12 : ℕ) = 8 + 4 from rfl, ← List.drop_drop, hdp8]
    exact drop_append_of_length _ h4L
  have hdp16 : F.drop 16 = p ++ rest := by
    rw [show (16 : ℕ) = 12 + 4 from rfl, ← List.drop_drop, hdp12]
    exact drop_append_of_length _ h4c
  have hdecL : leDecode ((F.drop 8).take 4) = p.length := by
    rw [hdp8, take_append_of_length _ h4L]
    exact leDecode_u32le hlen
  have hdecC : leDecode ((F.drop 12).take 4) = calculate_checksum p := by
    rw [hdp12, take_append_of_length _ h4c]
    exact leDecode_u32le (calculate_checksum_lt p)
  have htkp : (p ++ rest).take p.length = p := take_append_of_length _ rfl
  have hdrp : (p ++ rest).drop p.length = rest := drop_append_of_length _ rfl
  rw [replay_log_binary.eq_def]
  rw [if_neg (by omega), if_neg (by rw [List.length_drop]; omega),
    if_neg (by rw [List.length_drop]; omega), hdecL, hdecC, hdp16, htkp, hdrp]
  rw [if_neg (by rw [List.length_append]; omega), if_neg (fun h => h rfl)]

theorem replay_binary_encodeRecords {σ : Type} (proc : List Nat → σ → Option σ)
    (recs : List (Nat × List Nat)) (t : List Nat) (s : σ)
    (hlens : ∀ r ∈ recs, (Prod.snd r).length < 2 ^ 32) :
    replay_log_binary proc (encodeRecords recs ++ t) s
      = match procFold proc (recs.map Prod.snd) s with
        | none => none
        | some s2 => replay_log_binary proc t s2 := by
  induction recs generalizing s with
  | nil => simp [encodeRecords, procFold]
  | cons r rest ih =>
    obtain ⟨id, p⟩ := r
    rw [encodeRecords, List.append_assoc,
      replay_binary_cons proc id p _ s (hlens (id, p) (by simp))]
    simp only [List.map_cons, procFold]
    cases proc p s with
    | none => rfl
    | some s2 => exact ih s2 (fun r hr => hlens r (by simp [hr]))

/-! ### C3: checksum mismatches versus truncation during replay -/

/-- C3 (amended): during binary WAL replay, (1) a file of well-formed records
followed by fewer than 8 trailing bytes — truncation at a record boundary or
inside the 8-byte record id — replays cleanly, applying exactly the records
before the truncation point; (2) truncation inside the length or checksum
field of the header (8 ≤ leftover < 16 bytes) is an error that aborts
replay; (3) a record whose stored checksum differs from the checksum
recomputed over its payload is a fatal error; (4) a record whose payload is
cut short by end-of-file is likewise an error. -/
theorem replay_checksum_and_truncation :
    (∀ {σ : Type} (proc : List Nat → σ → Option σ) recs t s,
      (∀ r ∈ recs, (Prod.snd r).length < 2 ^ 32) → t.length < 8 →
      replay_log_binary proc (encodeRecords recs ++ t) s
        = procFold proc (recs.map Prod.snd) s) ∧
    (∀ {σ : Type} (proc : List Nat → σ → Option σ) recs t s,
      (∀ r ∈ recs, (Prod.snd r).length < 2 ^ 32) → 8 ≤ t.length → t.length < 16 →
      replay_log_binary proc (encodeRecords recs ++ t) s = none) ∧
    (∀ {σ : Type} (proc : List Nat → σ → Option σ) id p cs' s,
      p.length < 2 ^ 32 → cs' < 2 ^ 32 → cs' ≠ calculate_checksum p →
      replay_log_binary proc (u64le id ++ (u32le p.length ++ (u32le cs' ++ p))) s = none) ∧
    (∀ {σ : Type} (proc : List Nat → σ → Option σ) id len cs' q s,
      len < 2 ^ 32 → cs' < 2 ^ 32 → q.length < len →
      replay_log_binary proc (u64le id ++ (u32le len ++ (u32le cs' ++ q))) s = none) := by
  refine ⟨?_, ?_, ?_, ?_⟩
  · intro σ proc recs t s hlens ht
    rw [replay_binary_encodeRecords proc recs t s hlens]
    have htail : ∀ s2 : σ, replay_log_binary proc t s2 = some s2 := by
      intro s2
      rw [replay_log_binary.eq_def, if_pos ht]
    cases procFold proc (recs.map Prod.snd) s with
    | none => rfl
    | some s2 => exact htail s2
  · intro σ proc recs t s hlens ht8 ht16
    rw [replay_binary_encodeRecords proc recs t s hlens]
    have htail : ∀ s2 : σ, replay_log_binary proc t s2 = none := by
      intro s2
      rw [replay_log_binary.eq_def, if_neg (by omega)]
      by_cases h12 : (t.drop 8).length < 4
      · rw [if_pos h12]
      · rw [if_neg h12, if_pos (by rw [List.length_drop] at h12 ⊢; omega)]
    cases procFold proc (recs.map Prod.snd) s with
    | none => rfl
    | some s2 => exact htail s2
  · intro σ proc id p cs' s hlen hcs hne
    have h8 : (u64le id).length = 8 := leEncode_length 8 id
    have h4L : (u32le p.length).length = 4 := leEncode_length 4 _
    have h4c : (u32le cs').length = 4 := leEncode_length 4 _
    set F := u64le id ++ (u32le p.length ++ (u32le cs' ++ p)) with hF
    have hFlen : F.length = 16 + p.length := by
      simp only [hF, List.length_append, h8, h4L, h4c]
      omega
    have hdp8 : F.drop 8 = u32le p.length ++ (u32le cs' ++ p) :=
      drop_append_of_length _ h8
    have hdp12 : F.drop 12 = u32le cs' ++ p := by
      rw [show (12 : ℕ) = 8 + 4 from rfl, ← List.drop_drop, hdp8]
      exact drop_append_of_length _ h4L
    have hdp16 : F.drop 16 = p := by
      rw [show (16 : ℕ) = 12 + 4 from rfl, ← List.drop_drop, hdp12]
      exact drop_append_of_length _ h4c
    have hdecL : leDecode ((F.drop 8).take 4) = p.length := by
      rw [hdp8, take_append_of_length _ h4L]
      exact leDecode_u32le hlen
    have hdecC : leDecode ((F.drop 12).take 4) = cs' := by
      rw [hdp12, take_append_of_length _ h4c]
      exact leDecode_u32le hcs
    rw [replay_log_binary.eq_def]
    rw [if_neg (by omega), if_neg (by rw [List.length_drop]; omega),
      if_neg (by rw [List.length_drop]; omega), hdecL, hdecC, hdp16, List.take_length]
    rw [if_neg (by omega), if_pos (fun h => hne h.symm)]
  · intro σ proc id len cs' q s hlen hcs hq
    have h8 : (u64le id).length = 8 := leEncode_length 8 id
    have h4L : (u32le len).length = 4 := leEncode_length 4 _
    have h4c : (u32le cs').length = 4 := leEncode_length 4 _
    set F := u64le id ++ (u32le len ++ (u32le cs' ++ q)) with hF
    have hFlen : F.length = 16 + q.length := by
      simp only [hF, List.length_append, h8, h4L, h4c]
      omega
    have hdp8 : F.drop 8 = u32le len ++ (u32le cs' ++ q) :=
      drop_append_of_length _ h8
    have hdp12 : F.drop 12 = u32le cs' ++ q := by
      rw [show (12 : ℕ) = 8 + 4 from rfl, ← List.drop_drop, hdp8]
      exact drop_append_of_length _ h4L
    have hdp16 : F.drop 16 = q := by
      rw [show (16 : ℕ) = 12 + 4 from rfl, ← List.drop_drop, hdp12]
      exact drop_append_of_length _ h4c
    have hdecL : leDecode ((F.drop 8).take 4) = len := by
      rw [hdp8, take_append_of_length _ h4L]
      exact leDecode_u32le hlen
    rw [replay_log_binary.eq_def]
    rw [if_neg (by omega), if_neg (by rw [List.length_drop]; omega),
      if_neg (by rw [List.length_drop]; omega), hdecL, hdp16]
    rw [if_pos hq]

/-- Closed witness: one well-formed record followed by a single stray byte
replays cleanly and processes exactly that record's payload. -/
theorem replay_framing_witness :
    replay_log_binary (fun p (s : List (List Nat)) => some (p :: s))
      (encodeRecords [(1, [65])] ++ [9]) [] = some [[65]] := by
  rw [replay_checksum_and_truncation.1 (fun p s => some (p :: s)) [(1, [65])] [9] []
    (by intro r hr; rw [List.mem_singleton] at hr; subst hr; norm_num) (by norm_num)]
  rfl

/-- C3 counterexample: a log file whose single (first) record is truncated in
the middle of its header — 8 id bytes followed by only 2 of the 4 length
bytes — aborts replay with an error even though the entry processor never
fails; the claim requires this end-of-file truncation to terminate replay
cleanly. -/
theorem replay_truncated_header_is_error :
    replay_log (fun _ (s : Nat) => some s) [1, 0, 0, 0, 0, 0, 0, 0, 5, 0] 0 = none := by
  have hdet : is_text_format [1, 0, 0, 0, 0, 0, 0, 0, 5, 0] = false := by decide
  unfold replay_log
  rw [hdet, if_neg (by simp)]
  rw [replay_log_binary.eq_def]
  norm_num

/-! ## Checkpoint serialization (`KVTMemManagerBase`)

The in-memory state of `KVTMemManagerBase`: tables keyed by name (the
`Table::name` field always equals its key in `tables`, so the name is
modelled once), each carrying id, partition method and an ordered
key → entry map, plus the two counters. -/

/-- `KVTMemManagerBase::Entry`: value bytes plus an `int32_t` metadata word. -/
structure Entry where
  data : List Nat
  metadata : Int
  deriving DecidableEq, Repr

structure TableData where
  id : Nat
  partition_method : List Nat
  data : List (List Nat × Entry)
  deriving DecidableEq, Repr

structure CkptState where
  tables : List (List Nat × TableData)
  next_table_id : Nat
  next_tx_id : Nat
  deriving DecidableEq, Repr

/-- 4-byte little-endian image of an `int32_t` (two's complement). -/
def i32le (m : Int) : List Nat := u32le (m % 2 ^ 32).toNat

/-- Reading 4 bytes back into an `int32_t`. -/
def i32_of_u32 (n : Nat) : Int :=
  if n < 2 ^ 31 then (n : Int) else (n : Int) - 2 ^ 32

/-- Length-prefixed byte string, as written by `save_checkpoint`
(`uint64_t` length then the raw bytes). -/
def writeBytes (s : List Nat) : List Nat := u64le s.length ++ s

def writeEntry (kv : List Nat × Entry) : List Nat :=
  writeBytes kv.1 ++ writeBytes kv.2.data ++ i32le kv.2.metadata

def writeTable (nt : List Nat × TableData) : List Nat :=
  writeBytes nt.1 ++ u64le nt.2.id ++ writeBytes nt.2.partition_method ++
    u64le nt.2.data.length ++ (nt.2.data.map writeEntry).flatten

/-- `KVTMemManagerBase::save_checkpoint`: header
`num_tables, next_table_id, next_tx_id` then each table in iteration order. -/
def save_checkpoint (s : CkptState) : List Nat :=
  u64le s.tables.length ++ u64le s.next_table_id ++ u64le s.next_tx_id ++
    (s.tables.map writeTable).flatten

def readBytesN (n : Nat) (f : List Nat) : Option (List Nat × List Nat) :=
  if f.length < n then none else some (f.take n, f.drop n)

def readU64 (f : List Nat) : Option (Nat × List Nat) :=
  if f.length < 8 then none else some (leDecode (f.take 8), f.drop 8)

def readBStr (f : List Nat) : Option (List Nat × List Nat) :=
  match readU64 f with
  | none => none
  | some (n, f1) => readBytesN n f1

def readI32 (f : List Nat) : Option (Int × List Nat) :=
  if f.length < 4 then none else some (i32_of_u32 (leDecode (f.take 4)), f.drop 4)

def readEntries : Nat → List Nat → Option (List (List Nat × Entry) × List Nat)
  | 0, f => some ([], f)
  | n + 1, f =>
    match readBStr f with
    | none => none
    | some (k, f1) =>
      match readBStr f1 with
      | none => none
      | some (d, f2) =>
        match readI32 f2 with
        | none => none
        | some (m, f3) =>
          match readEntries n f3 with
          | none => none
          | some (es, f4) => some ((k, ⟨d, m⟩) :: es, f4)

def readTables : Nat → List Nat → Option (List (List Nat × TableData) × List Nat)
  | 0, f => some ([], f)
  | n + 1, f =>
    match readBStr f with
    | none => none
    | some (name, f1) =>
      match readU64 f1 with
      | none => none
      | some (id, f2) =>
        match readBStr f2 with
        | none => none
        | some (pm, f3) =>
          match readU64 f3 with
          | none => none
          | some (numEntries, f4) =>
            match readEntries numEntries f4 with
            | none => none
            | some (es, f5) =>
              match readTables n f5 with
              | none => none
              | some (ts, f6) => some ((name, ⟨id, pm, es⟩) :: ts, f6)

/-- `KVTMemManagerBase::load_checkpoint`: clear, read the header, then each
table.  (The C++ code does not check its `ifs.read` calls; `none` here marks
reads past end-of-file, which cannot occur on a well-formed file.) -/
def load_checkpoint (f : List Nat) : Option CkptState :=
  match readU64 f with
  | none => none
  | some (numTables, f1) =>
    match readU64 f1 with
    | none => none
    | some (ntid, f2) =>
      match readU64 f2 with
      | none => none
      | some (ntx, f3) =>
        match readTables numTables f3 with
        | none => none
        | some (ts, _) => some ⟨ts, ntid, ntx⟩

/-- The size bounds that every state reachable in the C++ process satisfies
automatically (`size_t`/`uint64_t` sizes, `int32_t` metadata). -/
def entryWF (kv : List Nat × Entry) : Bool :=
  decide (kv.1.length < 2 ^ 64) && decide (kv.2.data.length < 2 ^ 64) &&
    decide (-2 ^ 31 ≤ kv.2.metadata) && decide (kv.2.metadata < 2 ^ 31)

def tableWF (nt : List Nat × TableData) : Bool :=
  decide (nt.1.length < 2 ^ 64) && decide (nt.2.id < 2 ^ 64) &&
    decide (nt.2.partition_method.length < 2 ^ 64) &&
    decide (nt.2.data.length < 2 ^ 64) && nt.2.data.all entryWF

def ckptWF (s : CkptState) : Bool :=
  decide (s.tables.length < 2 ^ 64) && decide (s.next_table_id < 2 ^ 64) &&
    decide (s.next_tx_id < 2 ^ 64) && s.tables.all tableWF

/-! ### C2: checkpoint round trip -/

theorem readU64_u64le (n : Nat) (r : List Nat) (h : n < 2 ^ 64) :
    readU64 (u64le n ++ r) = some (n, r) := by
  have h8 : (u64le n).length = 8 := leEncode_length 8 n
  unfold readU64
  rw [if_neg (by rw [List.length_append, h8]; omega), take_append_of_length _ h8,
    drop_append_of_length _ h8, leDecode_u64le h]

theorem readBStr_writeBytes (s r : List Nat) (h : s.length < 2 ^ 64) :
    readBStr (writeBytes s ++ r) = some (s, r) := by
  unfold writeBytes
  rw [List.append_assoc]
  simp only [readBStr, readU64_u64le s.length (s ++ r) h]
  unfold readBytesN
  rw [if_neg (by rw [List.length_append]; omega), take_append_of_length _ rfl,
    drop_append_of_length _ rfl]

theorem readI32_i32le (m : Int) (r : List Nat) (h1 : -2 ^ 31 ≤ m) (h2 : m < 2 ^ 31) :
    readI32 (i32le m ++ r) = some (m, r) := by
  have h4 : (i32le m).length = 4 := leEncode_length 4 _
  have hlt : (m % 2 ^ 32).toNat < 2 ^ 32 := by omega
  unfold readI32
  rw [if_neg (by rw [List.length_append, h4]; omega), take_append_of_length _ h4,
    drop_append_of_length _ h4]
  show some (i32_of_u32 (leDecode (i32le m)), r) = some (m, r)
  unfold i32le
  rw [leDecode_u32le hlt]
  unfold i32_of_u32
  have e1 : 0 ≤ m % 2 ^ 32 := Int.emod_nonneg m (by norm_num)
  have e2 : m % 2 ^ 32 < 2 ^ 32 := Int.emod_lt_of_pos m (by norm_num)
  have e3 : m % 2 ^ 32 = m - 2 ^ 32 * (m / 2 ^ 32) := Int.emod_def m _
  split_ifs with hc
  · refine congrArg some (Prod.ext ?_ rfl)
    show (((m % 2 ^ 32).toNat : Int)) = m
    omega
  · refine congrArg some (Prod.ext ?_ rfl)
    show (((m % 2 ^ 32).toNat : Int)) - 2 ^ 32 = m
    omega

theorem readEntries_flatten (es : List (List Nat × Entry)) (r : List Nat)
    (h : es.all entryWF = true) :
    readEntries es.length ((es.map writeEntry).flatten ++ r) = some (es, r) := by
  induction es generalizing r with
  | nil => simp [readEntries]
  | cons e rest ih =>
    rw [List.all_cons, Bool.and_eq_true] at h
    obtain ⟨he, hrest⟩ := h
    unfold entryWF at he
    simp only [Bool.and_eq_true, decide_eq_true_eq] at he
    obtain ⟨⟨⟨hk, hd⟩, hm1⟩, hm2⟩ := he
    simp only [List.length_cons, List.map_cons, List.flatten_cons, readEntries,
      writeEntry, List.append_assoc, readBStr_writeBytes _ _ hk,
      readBStr_writeBytes _ _ hd, readI32_i32le _ _ hm1 hm2, ih r hrest]

theorem readTables_flatten (ts : List (List Nat × TableData)) (r : List Nat)
    (h : ts.all tableWF = true) :
    readTables ts.length ((ts.map writeTable).flatten ++ r) = some (ts, r) := by
  induction ts generalizing r with
  | nil => simp [readTables]
  | cons t rest ih =>
    rw [List.all_cons, Bool.and_eq_true] at h
    obtain ⟨ht, hrest⟩ := h
    unfold tableWF at ht
    simp only [Bool.and_eq_true, decide_eq_true_eq] at ht
    obtain ⟨⟨⟨⟨hn, hid⟩, hpm⟩, hne⟩, hes⟩ := ht
    simp only [List.length_cons, List.map_cons, List.flatten_cons, readTables,
      writeTable, List.append_assoc, readBStr_writeBytes _ _ hn,
      readU64_u64le t.2.id _ hid, readBStr_writeBytes _ _ hpm,
      readU64_u64le t.2.data.length _ hne, readEntries_flatten t.2.data _ hes,
      ih r hrest]

/-- C2: for every in-memory state satisfying the size bounds that all C++
states satisfy (`size_t` lengths below `2^64`, `int32_t` metadata), writing a
checkpoint with `save_checkpoint` and reading it back with `load_checkpoint`
reconstructs exactly the same state — same tables (names, ids, partition
methods, key → entry data) and same `next_table_id` / `next_tx_id`. -/
theorem load_save_checkpoint (s : CkptState) (h : ckptWF s = true) :
    load_checkpoint (save_checkpoint s) = some s := by
  unfold ckptWF at h
  simp only [Bool.and_eq_true, decide_eq_true_eq] at h
  obtain ⟨⟨⟨hnum, hntid⟩, hntx⟩, htab⟩ := h
  unfold save_checkpoint
  have hflat : readTables s.tables.length ((s.tables.map writeTable).flatten ++ []) =
      some (s.tables, []) := readTables_flatten s.tables [] htab
  rw [List.append_nil] at hflat
  simp only [List.append_assoc, load_checkpoint,
    readU64_u64le s.tables.length _ hnum, readU64_u64le s.next_table_id _ hntid,
    readU64_u64le s.next_tx_id _ hntx, hflat]

/-- A concrete state for the checkpoint round-trip witness. -/
def ckptExample : CkptState :=
  ⟨[([116, 49], ⟨1, [104, 97, 115, 104],
      [([107], ⟨[118], 0⟩), ([], ⟨[], -1⟩)]⟩)], 2, 5⟩

/-- Closed witness: the concrete state `ckptExample` (one table `"t1"` with
two entries, one tombstone) survives the checkpoint round trip. -/
theorem load_save_checkpoint_witness :
    ckptWF ckptExample = true ∧
    load_checkpoint (save_checkpoint ckptExample) = some ckptExample :=
  ⟨by decide, load_save_checkpoint ckptExample (by decide)⟩

/-! ## Catalog (`KVTMemManagerBase::create_table` / `drop_table`) -/

structure CatTable where
  id : Nat
  name : String
  partition_method : String
  deriving DecidableEq, Repr

structure CatalogState where
  tables : List CatTable
  next_table_id : Nat
  deriving DecidableEq, Repr

/-- `KVTMemManagerBase::create_table`: existence check first, then the
partition-method check, then allocation from the increasing counter.
Returns (new state, error, assigned id). -/
def create_table (s : CatalogState) (table_name partition_method : String) :
    CatalogState × KVTError × Option Nat :=
  if (s.tables.find? (fun t => t.name = table_name)).isSome then
    (s, KVTError.TABLE_ALREADY_EXISTS, none)
  else if partition_method ≠ "hash" ∧ partition_method ≠ "range" then
    (s, KVTError.INVALID_PARTITION_METHOD, none)
  else
    (⟨s.tables ++ [⟨s.next_table_id, table_name, partition_method⟩],
      s.next_table_id + 1⟩,
     KVTError.SUCCESS, some s.next_table_id)

/-- `KVTMemManagerBase::drop_table`: look the name up by id (an empty name
signalling "not found", as in the source), then erase by name. -/
def drop_table (s : CatalogState) (table_id : Nat) : CatalogState × KVTError :=
  if (match s.tables.find? (fun t => t.id = table_id) with
      | some t => t.name
      | none => "") = "" then
    (s, KVTError.TABLE_NOT_FOUND)
  else
    (⟨s.tables.filter (fun u =>
        u.name ≠ (match s.tables.find? (fun t => t.id = table_id) with
          | some t => t.name
          | none => "")), s.next_table_id⟩,
     KVTError.SUCCESS)

inductive CatOp where
  | create (name pm : String)
  | drop (id : Nat)
  deriving DecidableEq, Repr

/-- The constructor state of `KVTMemManagerBase`: no tables,
`next_table_id = 1`. -/
def initCatalog : CatalogState := ⟨[], 1⟩

/-- Run a sequence of catalog operations, collecting the ids assigned by the
successful `create_table` calls, in order. -/
def runCatOps : List CatOp → CatalogState → CatalogState × List Nat
  | [], s => (s, [])
  | CatOp.create n pm :: rest, s =>
    match create_table s n pm with
    | (s2, _, some i) => ((runCatOps rest s2).1, i :: (runCatOps rest s2).2)
    | (s2, _, none) => runCatOps rest s2
  | CatOp.drop i :: rest, s => runCatOps rest (drop_table s i).1

theorem create_table_id_cases (s : CatalogState) (n pm : String) :
    (∃ i, create_table s n pm = (⟨s.tables ++ [⟨s.next_table_id, n, pm⟩],
        s.next_table_id + 1⟩, KVTError.SUCCESS, some i) ∧ i = s.next_table_id) ∨
    create_table s n pm = (s, KVTError.TABLE_ALREADY_EXISTS, none) ∨
    create_table s n pm = (s, KVTError.INVALID_PARTITION_METHOD, none) := by
  unfold create_table
  split_ifs with h1 h2
  · right; left; rfl
  · right; right; rfl
  · left; exact ⟨s.next_table_id, rfl, rfl⟩

theorem drop_table_next_table_id (s : CatalogState) (i : Nat) :
    ((drop_table s i).1).next_table_id = s.next_table_id := by
  unfold drop_table
  split_ifs <;> rfl

theorem runCatOps_ids (ops : List CatOp) (s : CatalogState) :
    List.Pairwise (· < ·) (runCatOps ops s).2 ∧
      ∀ i ∈ (runCatOps ops s).2, s.next_table_id ≤ i := by
  induction ops generalizing s with
  | nil => simp [runCatOps]
  | cons op rest ih =>
    cases op with
    | create n pm =>
      rcases create_table_id_cases s n pm with ⟨i, hc, hi⟩ | hc | hc
      · subst hi
        rw [runCatOps, hc]
        obtain ⟨hp, hb⟩ := ih (⟨s.tables ++ [⟨s.next_table_id, n, pm⟩],
          s.next_table_id + 1⟩ : CatalogState)
        constructor
        · exact List.Pairwise.cons (fun j hj => by have := hb j hj; simp at this; omega) hp
        · intro j hj
          rcases List.mem_cons.mp hj with hj | hj
          · omega
          · have := hb j hj; simp at this; omega
      · rw [runCatOps, hc]
        exact ih s
      · rw [runCatOps, hc]
        exact ih s
    | drop i =>
      rw [runCatOps]
      obtain ⟨hp, hb⟩ := ih (drop_table s i).1
      exact ⟨hp, fun j hj => by
        have := hb j hj
        rw [drop_table_next_table_id] at this
        exact this⟩

/-- C9: `create_table` reports `TABLE_ALREADY_EXISTS` whenever the name is
taken (this check precedes the method check), reports
`INVALID_PARTITION_METHOD` for any method other than `"hash"`/`"range"` on a
fresh name, and across any sequence of creates and drops starting from the
initial manager state, the ids handed out by successful creates are strictly
increasing — dropped ids are never reused. -/
theorem create_table_errors_and_monotone_ids :
    (∀ s n pm, (s.tables.find? (fun t => t.name = n)).isSome →
      (create_table s n pm).2.1 = KVTError.TABLE_ALREADY_EXISTS) ∧
    (∀ s n pm, ¬(s.tables.find? (fun t => t.name = n)).isSome →
      pm ≠ "hash" → pm ≠ "range" →
      (create_table s n pm).2.1 = KVTError.INVALID_PARTITION_METHOD) ∧
    (∀ ops, List.Pairwise (· < ·) (runCatOps ops initCatalog).2) := by
  refine ⟨?_, ?_, ?_⟩
  · intro s n pm h
    unfold create_table
    rw [if_pos h]
  · intro s n pm h h1 h2
    unfold create_table
    rw [if_neg h, if_pos ⟨h1, h2⟩]
  · intro ops
    exact (runCatOps_ids ops initCatalog).1

/-- Closed witness: a duplicate name, an invalid partition method, and a
concrete create/drop/create sequence with strictly increasing ids. -/
theorem create_table_witness :
    (create_table ⟨[⟨1, "t", "hash"⟩], 2⟩ "t" "range").2.1
        = KVTError.TABLE_ALREADY_EXISTS ∧
    (create_table ⟨[⟨1, "t", "hash"⟩], 2⟩ "u" "foo").2.1
        = KVTError.INVALID_PARTITION_METHOD ∧
    List.Pairwise (· < ·) (runCatOps
      [CatOp.create "a" "hash", CatOp.drop 1, CatOp.create "b" "range"]
      initCatalog).2 :=
  ⟨create_table_errors_and_monotone_ids.1 ⟨[⟨1, "t", "hash"⟩], 2⟩ "t" "range" (by decide),
   create_table_errors_and_monotone_ids.2.1 ⟨[⟨1, "t", "hash"⟩], 2⟩ "u" "foo"
     (by decide) (by decide) (by decide),
   create_table_errors_and_monotone_ids.2.2 _⟩

/-! ## Log-entry dispatch (`KVTWrapper::process_log_entry`)

The virtual operations invoked during replay, as a record (the embedding of
the C++ virtual dispatch).  `create_table` receives the logged name and
partition method (the logged table id is parsed but ignored — a fresh id is
assigned through the out-parameter); `start_transaction` likewise assigns a
fresh transaction id. -/

structure ReplayOps (σ : Type) where
  create_table : String → String → σ → σ × KVTError
  drop_table : Nat → σ → σ × KVTError
  start_transaction : σ → σ × KVTError
  commit_transaction : Nat → σ → σ × KVTError
  rollback_transaction : Nat → σ → σ × KVTError
  set : Nat → Nat → String → String → σ → σ × KVTError
  del : Nat → Nat → String → σ → σ × KVTError

/-- Whitespace tokenization of `std::istringstream` extraction. -/
def tokenize (s : String) : List String :=
  (s.split (fun c => c = ' ' ∨ c = '\t' ∨ c = '\n' ∨ c = '\r')).filter
    (fun t => t ≠ "")

/-- `iss >> str`: the `i`-th token, or the empty string when extraction
fails. -/
def tokArg (ts : List String) (i : Nat) : String := ts.getD i ""

/-- `iss >> n` for an unsigned integer argument: C++ value-initializes the
target to 0 on extraction failure. -/
def natArg (ts : List String) (i : Nat) : Nat := ((ts.getD i "").toNat?).getD 0

/-- "call the operation; if the result is not SUCCESS, replay fails". -/
def applyStep {σ : Type} (r : σ × KVTError) : Option σ :=
  if r.2 = KVTError.SUCCESS then some r.1 else none

/-- `KVTWrapper::process_log_entry` over the whitespace tokens of the
payload: the if-chain of the source, in source order. -/
def process_log_tokens {σ : Type} (ops : ReplayOps σ) (ts : List String)
    (s : σ) : Option σ :=
  if ts.headD "" = "CREATE_TABLE" then
    applyStep (ops.create_table (tokArg ts 1) (tokArg ts 2) s)
  else if ts.headD "" = "DROP_TABLE" then
    applyStep (ops.drop_table (natArg ts 1) s)
  else if ts.headD "" = "START_TRANSACTION" then
    applyStep (ops.start_transaction s)
  else if ts.headD "" = "COMMIT_TRANSACTION" then
    applyStep (ops.commit_transaction (natArg ts 1) s)
  else if ts.headD "" = "ROLLBACK_TRANSACTION" then
    applyStep (ops.rollback_transaction (natArg ts 1) s)
  else if ts.headD "" = "GET" then some s
  else if ts.headD "" = "SET" then
    applyStep (ops.set (natArg ts 1) (natArg ts 2) (tokArg ts 3) (tokArg ts 4) s)
  else if ts.headD "" = "DEL" then
    applyStep (ops.del (natArg ts 1) (natArg ts 2) (tokArg ts 3) s)
  else if ts.headD "" = "SCAN" ∨ ts.headD "" = "PROCESS" ∨
      ts.headD "" = "RANGE_PROCESS" ∨ ts.headD "" = "BATCH_EXECUTE" then some s
  else none

/-- `KVTWrapper::process_log_entry` on the raw payload string. -/
def process_log_entry {σ : Type} (ops : ReplayOps σ) (payload : String)
    (s : σ) : Option σ :=
  process_log_tokens ops (tokenize payload) s

/-- C5: the replay dispatch re-applies `CREATE_TABLE`, `DROP_TABLE`,
`START_TRANSACTION`, `COMMIT_TRANSACTION`, `ROLLBACK_TRANSACTION`, `SET` and
`DEL` with the logged arguments (failing replay if the operation fails),
skips `GET`, `SCAN`, `PROCESS`, `RANGE_PROCESS` and `BATCH_EXECUTE` without
touching the state, and fails replay on any other keyword. -/
theorem process_log_entry_dispatch {σ : Type} (ops : ReplayOps σ) (s : σ) :
    (∀ ts : List String, ts.headD "" ∈
        ["GET", "SCAN", "PROCESS", "RANGE_PROCESS", "BATCH_EXECUTE"] →
      process_log_tokens ops ts s = some s) ∧
    (∀ ts : List String, ts.headD "" ∉
        ["CREATE_TABLE", "DROP_TABLE", "START_TRANSACTION", "COMMIT_TRANSACTION",
         "ROLLBACK_TRANSACTION", "GET", "SET", "DEL", "SCAN", "PROCESS",
         "RANGE_PROCESS", "BATCH_EXECUTE"] →
      process_log_tokens ops ts s = none) ∧
    (∀ ts : List String, ts.headD "" = "CREATE_TABLE" →
      process_log_tokens ops ts s
        = applyStep (ops.create_table (tokArg ts 1) (tokArg ts 2) s)) ∧
    (∀ ts : List String, ts.headD "" = "DROP_TABLE" →
      process_log_tokens ops ts s = applyStep (ops.drop_table (natArg ts 1) s)) ∧
    (∀ ts : List String, ts.headD "" = "START_TRANSACTION" →
      process_log_tokens ops ts s = applyStep (ops.start_transaction s)) ∧
    (∀ ts : List String, ts.headD "" = "COMMIT_TRANSACTION" →
      process_log_tokens ops ts s
        = applyStep (ops.commit_transaction (natArg ts 1) s)) ∧
    (∀ ts : List String, ts.headD "" = "ROLLBACK_TRANSACTION" →
      process_log_tokens ops ts s
        = applyStep (ops.rollback_transaction (natArg ts 1) s)) ∧
    (∀ ts : List String, ts.headD "" = "SET" →
      process_log_tokens ops ts s
        = applyStep (ops.set (natArg ts 1) (natArg ts 2) (tokArg ts 3)
            (tokArg ts 4) s)) ∧
    (∀ ts : List String, ts.headD "" = "DEL" →
      process_log_tokens ops ts s
        = applyStep (ops.del (natArg ts 1) (natArg ts 2) (tokArg ts 3) s)) := by
  refine ⟨?_, ?_, ?_, ?_, ?_, ?_, ?_, ?_, ?_⟩
  · intro ts h
    simp only [List.mem_cons, List.not_mem_nil, or_false] at h
    rcases h with h | h | h | h | h <;> (unfold process_log_tokens; rw [h]; simp)
  · intro ts h
    have h1 : ts.headD "" ≠ "CREATE_TABLE" := fun he => h (by rw [he]; decide)
    have h2 : ts.headD "" ≠ "DROP_TABLE" := fun he => h (by rw [he]; decide)
    have h3 : ts.headD "" ≠ "START_TRANSACTION" := fun he => h (by rw [he]; decide)
    have h4 : ts.headD "" ≠ "COMMIT_TRANSACTION" := fun he => h (by rw [he]; decide)
    have h5 : ts.headD "" ≠ "ROLLBACK_TRANSACTION" := fun he => h (by rw [he]; decide)
    have h6 : ts.headD "" ≠ "GET" := fun he => h (by rw [he]; decide)
    have h7 : ts.headD "" ≠ "SET" := fun he => h (by rw [he]; decide)
    have h8 : ts.headD "" ≠ "DEL" := fun he => h (by rw [he]; decide)
    have h9 : ts.headD "" ≠ "SCAN" := fun he => h (by rw [he]; decide)
    have h10 : ts.headD "" ≠ "PROCESS" := fun he => h (by rw [he]; decide)
    have h11 : ts.headD "" ≠ "RANGE_PROCESS" := fun he => h (by rw [he]; decide)
    have h12 : ts.headD "" ≠ "BATCH_EXECUTE" := fun he => h (by rw [he]; decide)
    unfold process_log_tokens
    rw [if_neg h1, if_neg h2, if_neg h3, if_neg h4, if_neg h5, if_neg h6, if_neg h7,
      if_neg h8, if_neg (by rintro (h | h | h | h); exacts [h9 h, h10 h, h11 h, h12 h])]
  all_goals intro ts h; unfold process_log_tokens; rw [h]; simp

/-- A concrete backend counting the operations re-applied, for the dispatch
witness. -/
def countReplayOps : ReplayOps Nat :=
  ⟨fun _ _ s => (s + 1, KVTError.SUCCESS),
   fun _ s => (s + 1, KVTError.SUCCESS),
   fun s => (s + 1, KVTError.SUCCESS),
   fun _ s => (s + 1, KVTError.SUCCESS),
   fun _ s => (s + 1, KVTError.SUCCESS),
   fun _ _ _ _ s => (s + 1, KVTError.SUCCESS),
   fun _ _ _ s => (s + 1, KVTError.SUCCESS)⟩

/-- Closed witness: a skipped read-only record, a rejected unknown keyword,
and a re-applied `SET`. -/
theorem process_log_entry_dispatch_witness :
    process_log_tokens countReplayOps ["SCAN", "1", "2"] 0 = some 0 ∧
    process_log_tokens countReplayOps ["TRUNCATE", "1"] 0 = none ∧
    process_log_tokens countReplayOps ["SET", "0", "1", "k", "v"] 0
      = applyStep (countReplayOps.set (natArg ["SET", "0", "1", "k", "v"] 1)
          (natArg ["SET", "0", "1", "k", "v"] 2) (tokArg ["SET", "0", "1", "k", "v"] 3)
          (tokArg ["SET", "0", "1", "k", "v"] 4) 0) :=
  ⟨(process_log_entry_dispatch countReplayOps 0).1 ["SCAN", "1", "2"] (by decide),
   (process_log_entry_dispatch countReplayOps 0).2.1 ["TRUNCATE", "1"] (by decide),
   (process_log_entry_dispatch countReplayOps 0).2.2.2.2.2.2.2.1
     ["SET", "0", "1", "k", "v"] (by decide)⟩

/-! ## Process engine (`KVTWrapper::process` / `range_process` /
`batch_execute`)

These default implementations call the pure-virtual `get`/`set`/`del`/`scan`
through `do_*` wrappers; the virtual backend is embedded as a `DataOps`
record (the concrete `KVTMemManager*` method bodies live in a translation
unit outside the provided sources).  Each returned record carries the value
the callee leaves in the by-reference `error_msg`.  The callback calls and
backend calls made are additionally returned as a ghost trace (`PEvent`
list) so the callback protocol can be stated. -/

/-- Byte image of an ASCII string literal (all message literals here are
ASCII, where code points and bytes coincide). -/
def strBytes (s : String) : List Nat := s.data.map Char.toNat

def processFailedMsg : List Nat := strBytes "Process function failed"

structure GetResult (σ : Type) where
  s : σ
  err : KVTError
  value : List Nat
  msg : List Nat

structure OpResult (σ : Type) where
  s : σ
  err : KVTError
  msg : List Nat

structure ScanResult (σ : Type) where
  s : σ
  err : KVTError
  items : List (List Nat × List Nat)
  msg : List Nat

structure DataOps (σ : Type) where
  get : Nat → Nat → List Nat → σ → GetResult σ
  set : Nat → Nat → List Nat → List Nat → σ → OpResult σ
  del : Nat → Nat → List Nat → σ → OpResult σ
  scan : Nat → Nat → List Nat → List Nat → Nat → σ → ScanResult σ

/-- `KVTProcessInput`: borrowed key/value/parameter (null at the final
range invocation) plus the `range_first`/`range_last` flags. -/
structure KVTProcessInput where
  key : Option (List Nat)
  value : Option (List Nat)
  parameter : Option (List Nat)
  range_first : Bool
  range_last : Bool
  deriving DecidableEq, Repr

structure KVTProcessOutput where
  update_value : Option (List Nat)
  delete_key : Bool
  return_value : Option (List Nat)
  deriving DecidableEq, Repr

/-- The user callback: success flag plus output sink (pure model). -/
def KVTProcessFunc : Type := KVTProcessInput → Bool × KVTProcessOutput

/-- Ghost trace of the calls `process`/`range_process`/`batch_execute`
make. -/
inductive PEvent where
  | getEv (tx table : Nat) (key : List Nat) (err : KVTError)
  | callEv (input : KVTProcessInput) (success : Bool) (out : KVTProcessOutput)
  | setEv (tx table : Nat) (key value : List Nat) (err : KVTError)
  | delEv (tx table : Nat) (key : List Nat) (err : KVTError)
  | scanEv (tx table : Nat) (key_start key_end : List Nat) (limit : Nat)
      (err : KVTError)
  deriving DecidableEq, Repr

structure ProcessResult (σ : Type) where
  s : σ
  err : KVTError
  result_value : List Nat
  msg : List Nat
  trace : List PEvent

/-- `KVTWrapper::process` (kvt_mem.h:871-915): get; on failure return the
get's error without calling `fn`.  Otherwise invoke the callback; on
callback failure return `EXT_FUNC_ERROR` with `return_value` (when present)
as the message and perform no mutation.  Otherwise apply `update_value` via
`set`, then `delete_key` via `del`, then surface `return_value`. -/
def process {σ : Type} (ops : DataOps σ) (tx table : Nat) (key : List Nat)
    (func : KVTProcessFunc) (param : List Nat) (s : σ) : ProcessResult σ :=
  let g := ops.get tx table key s
  if g.err ≠ KVTError.SUCCESS then
    ⟨g.s, g.err, [], g.msg, [PEvent.getEv tx table key g.err]⟩
  else
    let inp : KVTProcessInput := ⟨some key, some g.value, some param, false, false⟩
    let fr := func inp
    let tr1 : List PEvent := [PEvent.getEv tx table key g.err, PEvent.callEv inp fr.1 fr.2]
    if fr.1 = false then
      ⟨g.s, KVTError.EXT_FUNC_ERROR, [], fr.2.return_value.getD processFailedMsg, tr1⟩
    else
      match fr.2.update_value with
      | some v =>
        let sr := ops.set tx table key v g.s
        let tr2 := tr1 ++ [PEvent.setEv tx table key v sr.err]
        if sr.err ≠ KVTError.SUCCESS then
          ⟨sr.s, sr.err, [], sr.msg, tr2⟩
        else if fr.2.delete_key then
          let dr := ops.del tx table key sr.s
          let tr3 := tr2 ++ [PEvent.delEv tx table key dr.err]
          if dr.err ≠ KVTError.SUCCESS then
            ⟨dr.s, dr.err, [], dr.msg, tr3⟩
          else
            ⟨dr.s, KVTError.SUCCESS, fr.2.return_value.getD [], dr.msg, tr3⟩
        else
          ⟨sr.s, KVTError.SUCCESS, fr.2.return_value.getD [], sr.msg, tr2⟩
      | none =>
        if fr.2.delete_key then
          let dr := ops.del tx table key g.s
          let tr3 := tr1 ++ [PEvent.delEv tx table key dr.err]
          if dr.err ≠ KVTError.SUCCESS then
            ⟨dr.s, dr.err, [], dr.msg, tr3⟩
          else
            ⟨dr.s, KVTError.SUCCESS, fr.2.return_value.getD [], dr.msg, tr3⟩
        else
          ⟨g.s, KVTError.SUCCESS, fr.2.return_value.getD [], g.msg, tr1⟩

/-- C7: for every backend and every `process` invocation: (1) a failing
initial `get` returns the get's error and the callback is never invoked (the
trace is the lone get event); (2) when the callback succeeds with both
`update_value` and `delete_key` set and the `set` succeeds, the update is
applied via `set` strictly before the delete via `del`; (3) a failing
callback yields `EXT_FUNC_ERROR` with the callback's `return_value` (when
present) as the error message, and no `set` or `del` is performed. -/
theorem process_get_fail_update_order_ext_error {σ : Type} (ops : DataOps σ)
    (tx table : Nat) (key param : List Nat) (func : KVTProcessFunc) (s : σ) :
    ((ops.get tx table key s).err ≠ KVTError.SUCCESS →
      (process ops tx table key func param s).err = (ops.get tx table key s).err ∧
      (process ops tx table key func param s).trace
        = [PEvent.getEv tx table key (ops.get tx table key s).err]) ∧
    (∀ v, (ops.get tx table key s).err = KVTError.SUCCESS →
      (func ⟨some key, some (ops.get tx table key s).value, some param,
        false, false⟩).1 = true →
      (func ⟨some key, some (ops.get tx table key s).value, some param,
        false, false⟩).2.update_value = some v →
      (func ⟨some key, some (ops.get tx table key s).value, some param,
        false, false⟩).2.delete_key = true →
      (ops.set tx table key v (ops.get tx table key s).s).err = KVTError.SUCCESS →
      (process ops tx table key func param s).trace
        = [PEvent.getEv tx table key KVTError.SUCCESS,
           PEvent.callEv ⟨some key, some (ops.get tx table key s).value, some param,
             false, false⟩ true
             (func ⟨some key, some (ops.get tx table key s).value, some param,
               false, false⟩).2,
           PEvent.setEv tx table key v KVTError.SUCCESS,
           PEvent.delEv tx table key
             (ops.del tx table key (ops.set tx table key v
               (ops.get tx table key s).s).s).err]) ∧
    ((ops.get tx table key s).err = KVTError.SUCCESS →
      (func ⟨some key, some (ops.get tx table key s).value, some param,
        false, false⟩).1 = false →
      (process ops tx table key func param s).err = KVTError.EXT_FUNC_ERROR ∧
      (∀ m, (func ⟨some key, some (ops.get tx table key s).value, some param,
          false, false⟩).2.return_value = some m →
        (process ops tx table key func param s).msg = m) ∧
      (process ops tx table key func param s).trace
        = [PEvent.getEv tx table key KVTError.SUCCESS,
           PEvent.callEv ⟨some key, some (ops.get tx table key s).value, some param,
             false, false⟩ false
             (func ⟨some key, some (ops.get tx table key s).value, some param,
               false, false⟩).2]) := by
  refine ⟨?_, ?_, ?_⟩
  · intro h
    simp only [process]
    rw [if_pos h]
    exact ⟨rfl, rfl⟩
  · intro v hget hok hupd hdel hset
    simp only [process, hget, hupd, hok, hdel, hset]
    simp
    split_ifs <;> rfl
  · intro hget hfail
    simp only [process, hget, hfail]
    refine ⟨by simp, ?_, by simp⟩
    intro m hm
    simp [hm]

def insertSorted (k v : List Nat) : List (List Nat × List Nat) → List (List Nat × List Nat)
  | [] => [(k, v)]
  | (k2, v2) :: rest =>
    if lexLt k k2 then (k, v) :: (k2, v2) :: rest
    else if k = k2 then (k, v) :: rest
    else (k2, v2) :: insertSorted k v rest

/-- Modelled from the spec: a minimal single-table auto-commit backend over a
sorted key → value list, standing in for the `KVTMemManager*`
`get`/`set`/`del`/`scan` bodies, which live in a translation unit not among
the provided sources.  `scan` follows §4.2: ordered range `[start, stop)`
(empty `stop` meaning "to the end"), truncation by the limit reported as
`SCAN_LIMIT_REACHED`. -/
def simpleStoreOps : DataOps (List (List Nat × List Nat)) where
  get := fun _ _ k s =>
    match s.find? (fun kv => kv.1 = k) with
    | some kv => ⟨s, KVTError.SUCCESS, kv.2, []⟩
    | none => ⟨s, KVTError.KEY_NOT_FOUND, [], strBytes "Key not found"⟩
  set := fun _ _ k v s => ⟨insertSorted k v s, KVTError.SUCCESS, []⟩
  del := fun _ _ k s =>
    if (s.find? (fun kv => kv.1 = k)).isSome then
      ⟨s.filter (fun kv => kv.1 ≠ k), KVTError.SUCCESS, []⟩
    else ⟨s, KVTError.KEY_NOT_FOUND, strBytes "Key not found"⟩
  scan := fun _ _ start stop limit s =>
    ⟨s,
     if limit < (s.filter (fun kv =>
         !lexLt kv.1 start && (stop.isEmpty || lexLt kv.1 stop))).length then
       KVTError.SCAN_LIMIT_REACHED
     else KVTError.SUCCESS,
     (s.filter (fun kv =>
         !lexLt kv.1 start && (stop.isEmpty || lexLt kv.1 stop))).take limit,
     []⟩

/-- A callback that updates to `[50]`, requests deletion, and returns
`[114]`. -/
def updDelFunc : KVTProcessFunc := fun _ => (true, ⟨some [50], true, some [114]⟩)

/-- A callback that always fails with message `[101]`. -/
def failFunc : KVTProcessFunc := fun _ => (false, ⟨none, false, some [101]⟩)

/-- Closed witness for the `process` contract on the concrete backend:
a missing key, an update-then-delete callback, and a failing callback. -/
theorem process_contract_witness :
    (process simpleStoreOps 0 1 [107] updDelFunc [] []).err = KVTError.KEY_NOT_FOUND ∧
    (process simpleStoreOps 0 1 [107] updDelFunc [] [([107], [49])]).trace
      = [PEvent.getEv 0 1 [107] KVTError.SUCCESS,
         PEvent.callEv ⟨some [107], some [49], some [], false, false⟩ true
           ⟨some [50], true, some [114]⟩,
         PEvent.setEv 0 1 [107] [50] KVTError.SUCCESS,
         PEvent.delEv 0 1 [107] KVTError.SUCCESS] ∧
    (process simpleStoreOps 0 1 [107] failFunc [] [([107], [49])]).err
      = KVTError.EXT_FUNC_ERROR ∧
    (process simpleStoreOps 0 1 [107] failFunc [] [([107], [49])]).msg = [101] := by
  refine ⟨?_, ?_, ?_, ?_⟩
  · exact ((process_get_fail_update_order_ext_error simpleStoreOps 0 1 [107] []
      updDelFunc []).1 (by decide)).1
  · exact ((process_get_fail_update_order_ext_error simpleStoreOps 0 1 [107] []
      updDelFunc [([107], [49])]).2.1 [50] (by decide) rfl rfl rfl (by decide)).trans
      (by decide)
  · exact ((process_get_fail_update_order_ext_error simpleStoreOps 0 1 [107] []
      failFunc [([107], [49])]).2.2 (by decide) rfl).1
  · exact ((process_get_fail_update_order_ext_error simpleStoreOps 0 1 [107] []
      failFunc [([107], [49])]).2.2 (by decide) rfl).2.1 [101] rfl

/-! ## Range process (`KVTWrapper::range_process`, kvt_mem.h:917-987) -/

inductive ItemsOut (σ : Type) where
  | early (s : σ) (err : KVTError) (msg : List Nat) (tr : List PEvent)
  | ok (s : σ) (res : List (List Nat × List Nat)) (first : Bool) (msg : List Nat)
      (tr : List PEvent)
  deriving DecidableEq

/-- The inner for-loop of `range_process` over one scanned chunk: invoke the
callback on each item (`range_first` true exactly on the operation's first
invocation), apply `update_value` then `delete_key`, and append
`(key, return_value)` to the results when a return value was produced;
failures clear the results and return early. -/
def processItems {σ : Type} (ops : DataOps σ) (tx table : Nat) (param : List Nat)
    (func : KVTProcessFunc) :
    List (List Nat × List Nat) → Bool → σ → List (List Nat × List Nat) →
      List Nat → List PEvent → ItemsOut σ
  | [], first, s, res, msg, tr => ItemsOut.ok s res first msg tr
  | (k, v) :: items, first, s, res, msg, tr =>
    let inp : KVTProcessInput := ⟨some k, some v, some param, first, false⟩
    let fr := func inp
    let tr1 := tr ++ [PEvent.callEv inp fr.1 fr.2]
    if fr.1 = false then
      ItemsOut.early s KVTError.EXT_FUNC_ERROR
        (fr.2.return_value.getD processFailedMsg) tr1
    else
      match fr.2.update_value with
      | some nv =>
        let sr := ops.set tx table k nv s
        let tr2 := tr1 ++ [PEvent.setEv tx table k nv sr.err]
        if sr.err ≠ KVTError.SUCCESS then ItemsOut.early sr.s sr.err sr.msg tr2
        else if fr.2.delete_key then
          let dr := ops.del tx table k sr.s
          let tr3 := tr2 ++ [PEvent.delEv tx table k dr.err]
          if dr.err ≠ KVTError.SUCCESS then ItemsOut.early dr.s dr.err dr.msg tr3
          else
            processItems ops tx table param func items false dr.s
              (res ++ (match fr.2.return_value with
                | some rv => [(k, rv)]
                | none => [])) dr.msg tr3
        else
          processItems ops tx table param func items false sr.s
            (res ++ (match fr.2.return_value with
              | some rv => [(k, rv)]
              | none => [])) sr.msg tr2
      | none =>
        if fr.2.delete_key then
          let dr := ops.del tx table k s
          let tr3 := tr1 ++ [PEvent.delEv tx table k dr.err]
          if dr.err ≠ KVTError.SUCCESS then ItemsOut.early dr.s dr.err dr.msg tr3
          else
            processItems ops tx table param func items false dr.s
              (res ++ (match fr.2.return_value with
                | some rv => [(k, rv)]
                | none => [])) dr.msg tr3
        else
          processItems ops tx table param func items false s
            (res ++ (match fr.2.return_value with
              | some rv => [(k, rv)]
              | none => [])) msg tr1

inductive RPOut (σ : Type) where
  | early (s : σ) (err : KVTError) (msg : List Nat) (tr : List PEvent)
  | done (s : σ) (r_scan : KVTError) (res : List (List Nat × List Nat))
      (first : Bool) (msg : List Nat) (tr : List PEvent)
  | fuelOut
  deriving DecidableEq

/-- The chunked while-loop of `range_process` (fuel-indexed; the C++ loop
runs until a scan returns no rows or the results reach the limit).  `r_scan`
carries the last scan's result (`UNKNOWN_ERROR` before any scan), which is
what the function finally returns.  The next chunk starts at the successor
of the last yielded key (one appended zero byte). -/
def rpLoop {σ : Type} (ops : DataOps σ) (tx table : Nat) (key_end : List Nat)
    (limit : Nat) (param : List Nat) (func : KVTProcessFunc) :
    Nat → List Nat → Bool → σ → List (List Nat × List Nat) → List Nat →
      List PEvent → KVTError → RPOut σ
  | 0, _, _, _, _, _, _, _ => RPOut.fuelOut
  | fuel + 1, start, first, s, res, msg, tr, r_scan =>
    if res.length < limit then
      let sc := ops.scan tx table start key_end limit s
      let tr1 := tr ++ [PEvent.scanEv tx table start key_end limit sc.err]
      if sc.err ≠ KVTError.SUCCESS ∧ sc.err ≠ KVTError.SCAN_LIMIT_REACHED then
        RPOut.early sc.s sc.err sc.msg tr1
      else
        match processItems ops tx table param func sc.items first sc.s res sc.msg tr1 with
        | ItemsOut.early s2 e m t => RPOut.early s2 e m t
        | ItemsOut.ok s2 res2 first2 msg2 tr2 =>
          if sc.items.isEmpty then RPOut.done s2 sc.err res2 first2 msg2 tr2
          else
            rpLoop ops tx table key_end limit param func fuel
              ((sc.items.getLast?.getD ([], [])).1 ++ [0]) first2 s2 res2 msg2 tr2 sc.err
    else RPOut.done s r_scan res first msg tr

structure RangeResult (σ : Type) where
  s : σ
  err : KVTError
  results : List (List Nat × List Nat)
  msg : List Nat
  trace : List PEvent
  deriving DecidableEq

/-- `KVTWrapper::range_process`: run the chunked loop (results and error
message starting empty), then issue one final callback invocation with
`range_last = true` and null key/value; its failure clears the results and
returns `EXT_FUNC_ERROR`, its `return_value` (when present) is stored into
`error_msg`, and the last scan's result is returned. -/
def range_process {σ : Type} (fuel : Nat) (ops : DataOps σ) (tx table : Nat)
    (key_start key_end : List Nat) (limit : Nat) (func : KVTProcessFunc)
    (param : List Nat) (s : σ) : Option (RangeResult σ) :=
  match rpLoop ops tx table key_end limit param func fuel key_start true s
      [] [] [] KVTError.UNKNOWN_ERROR with
  | RPOut.fuelOut => none
  | RPOut.early s2 e m t => some ⟨s2, e, [], m, t⟩
  | RPOut.done s2 r res _ msg tr =>
    let inp : KVTProcessInput := ⟨none, none, none, false, true⟩
    let fr := func inp
    let tr2 := tr ++ [PEvent.callEv inp fr.1 fr.2]
    if fr.1 = false then some ⟨s2, KVTError.EXT_FUNC_ERROR, [], msg, tr2⟩
    else
      some ⟨s2, r, res,
        (match fr.2.return_value with
          | some m => m
          | none => msg), tr2⟩

/-- The per-item result a trace event accounts for: a successful callback
invocation on a (non-null) key that produced a return value. -/
def resultOfEvent : PEvent → Option (List Nat × List Nat)
  | PEvent.callEv inp true out =>
    match inp.key, out.return_value with
    | some k, some rv => some (k, rv)
    | _, _ => none
  | _ => none

def collectResults (tr : List PEvent) : List (List Nat × List Nat) :=
  tr.filterMap resultOfEvent

theorem collectResults_append (l1 l2 : List PEvent) :
    collectResults (l1 ++ l2) = collectResults l1 ++ collectResults l2 := by
  simp [collectResults]

theorem collect_callEv_item (k v p : List Nat) (b : Bool) (out : KVTProcessOutput) :
    collectResults [PEvent.callEv ⟨some k, some v, some p, b, false⟩ true out]
      = match out.return_value with
        | some rv => [(k, rv)]
        | none => [] := by
  rcases h : out.return_value with _ | rv <;>
    simp [collectResults, resultOfEvent, h]

theorem collect_setEv (tx table : Nat) (k v : List Nat) (e : KVTError) :
    collectResults [PEvent.setEv tx table k v e] = [] := rfl

theorem collect_delEv (tx table : Nat) (k : List Nat) (e : KVTError) :
    collectResults [PEvent.delEv tx table k e] = [] := rfl

theorem collect_scanEv (tx table : Nat) (a b : List Nat) (n : Nat) (e : KVTError) :
    collectResults [PEvent.scanEv tx table a b n e] = [] := rfl

theorem processItems_ok_collect {σ : Type} (ops : DataOps σ) (tx table : Nat)
    (param : List Nat) (func : KVTProcessFunc)
    (items : List (List Nat × List Nat)) :
    ∀ first s res msg tr s2 res2 first2 msg2 tr2,
      processItems ops tx table param func items first s res msg tr
        = ItemsOut.ok s2 res2 first2 msg2 tr2 →
      res = collectResults tr →
      res2 = collectResults tr2 := by
  induction items with
  | nil =>
    intro first s res msg tr s2 res2 first2 msg2 tr2 h hres
    rw [processItems] at h
    cases h
    exact hres
  | cons kv items ih =>
    obtain ⟨k, v⟩ := kv
    intro first s res msg tr s2 res2 first2 msg2 tr2 h hres
    simp only [processItems] at h
    by_cases hf : (func ⟨some k, some v, some param, first, false⟩).1 = false
    · rw [if_pos hf] at h
      cases h
    · rw [if_neg hf] at h
      rw [Bool.not_eq_false] at hf
      rw [hf] at h
      have hstep : res ++ (match (func ⟨some k, some v, some param,
            first, false⟩).2.return_value with
          | some rv => [(k, rv)]
          | none => [])
          = collectResults (tr ++ [PEvent.callEv
              ⟨some k, some v, some param, first, false⟩ true
              (func ⟨some k, some v, some param, first, false⟩).2]) := by
        rw [collectResults_append, collect_callEv_item, hres]
      rcases hu : (func ⟨some k, some v, some param, first, false⟩).2.update_value
          with _ | nv
      all_goals rw [hu] at h; simp only [] at h
      · -- no update
        by_cases hd : (func ⟨some k, some v, some param, first, false⟩).2.delete_key
        · rw [if_pos hd] at h
          by_cases hde : (ops.del tx table k s).err ≠ KVTError.SUCCESS
          · rw [if_pos hde] at h
            cases h
          · rw [if_neg hde] at h
            refine ih _ _ _ _ _ _ _ _ _ _ h ?_
            rw [collectResults_append, collect_delEv, List.append_nil]
            exact hstep
        · rw [if_neg hd] at h
          exact ih _ _ _ _ _ _ _ _ _ _ h hstep
      · -- update applied
        by_cases hse : (ops.set tx table k nv s).err ≠ KVTError.SUCCESS
        · rw [if_pos hse] at h
          cases h
        · rw [if_neg hse] at h
          by_cases hd : (func ⟨some k, some v, some param, first, false⟩).2.delete_key
          · rw [if_pos hd] at h
            by_cases hde : (ops.del tx table k (ops.set tx table k nv s).s).err
                ≠ KVTError.SUCCESS
            · rw [if_pos hde] at h
              cases h
            · rw [if_neg hde] at h
              refine ih _ _ _ _ _ _ _ _ _ _ h ?_
              rw [collectResults_append, collect_delEv, List.append_nil,
                collectResults_append, collect_setEv, List.append_nil]
              exact hstep
          · rw [if_neg hd] at h
            refine ih _ _ _ _ _ _ _ _ _ _ h ?_
            rw [collectResults_append, collect_setEv, List.append_nil]
            exact hstep

theorem rpLoop_done_collect {σ : Type} (ops : DataOps σ) (tx table : Nat)
    (key_end : List Nat) (limit : Nat) (param : List Nat) (func : KVTProcessFunc)
    (fuel : Nat) :
    ∀ start first s res msg tr r_scan s2 r2 res2 first2 msg2 tr2,
      rpLoop ops tx table key_end limit param func fuel start first s res msg tr r_scan
        = RPOut.done s2 r2 res2 first2 msg2 tr2 →
      res = collectResults tr →
      res2 = collectResults tr2 := by
  induction fuel with
  | zero =>
    intro start first s res msg tr r_scan s2 r2 res2 first2 msg2 tr2 h hres
    rw [rpLoop] at h
    cases h
  | succ fuel ih =>
    intro start first s res msg tr r_scan s2 r2 res2 first2 msg2 tr2 h hres
    simp only [rpLoop] at h
    by_cases hlim : res.length < limit
    · rw [if_pos hlim] at h
      by_cases herr : (ops.scan tx table start key_end limit s).err ≠ KVTError.SUCCESS ∧
          (ops.scan tx table start key_end limit s).err ≠ KVTError.SCAN_LIMIT_REACHED
      · rw [if_pos herr] at h
        cases h
      · rw [if_neg herr] at h
        have htr1 : res = collectResults (tr ++ [PEvent.scanEv tx table start key_end
            limit (ops.scan tx table start key_end limit s).err]) := by
          rw [collectResults_append, collect_scanEv, List.append_nil]
          exact hres
        rcases hpi : processItems ops tx table param func
            (ops.scan tx table start key_end limit s).items first
            (ops.scan tx table start key_end limit s).s res
            (ops.scan tx table start key_end limit s).msg
            (tr ++ [PEvent.scanEv tx table start key_end limit
              (ops.scan tx table start key_end limit s).err])
            with ⟨s3, e3, m3, t3⟩ | ⟨s3, res3, first3, msg3, tr3⟩
        · rw [hpi] at h
          cases h
        · rw [hpi] at h
          simp only [] at h
          have hres3 : res3 = collectResults tr3 :=
            processItems_ok_collect ops tx table param func _ _ _ _ _ _ _ _ _ _ _
              hpi htr1
          by_cases hemp : (ops.scan tx table start key_end limit s).items.isEmpty
          · rw [if_pos hemp] at h
            cases h
            exact hres3
          · rw [if_neg hemp] at h
            exact ih _ _ _ _ _ _ _ _ _ _ _ _ _ h hres3
    · rw [if_neg hlim] at h
      cases h
      exact hres

/-- C6 (amended): whenever the chunked scan loop of `range_process`
completes (rather than erroring or running out of fuel), `range_process`
issues exactly one further callback invocation, with `range_last = true` and
null key/value, after all per-item invocations; the returned result list
contains one `(key, return_value)` entry for each per-item callback
invocation that produced a return value — the final `range_last`
invocation's return value is NOT appended to the result list but is instead
stored into `error_msg`; and a failing final invocation clears the results
and returns `EXT_FUNC_ERROR`. -/
theorem range_process_results_and_final_callback {σ : Type} (ops : DataOps σ)
    (tx table : Nat) (key_start key_end param : List Nat) (limit fuel : Nat)
    (func : KVTProcessFunc) (s : σ) (s2 : σ) (r2 : KVTError)
    (res2 : List (List Nat × List Nat)) (first2 : Bool) (msg2 : List Nat)
    (tr2 : List PEvent)
    (hdone : rpLoop ops tx table key_end limit param func fuel key_start true s
        [] [] [] KVTError.UNKNOWN_ERROR = RPOut.done s2 r2 res2 first2 msg2 tr2) :
    res2 = collectResults tr2 ∧
    ∃ out : RangeResult σ,
      range_process fuel ops tx table key_start key_end limit func param s = some out ∧
      out.trace = tr2 ++ [PEvent.callEv ⟨none, none, none, false, true⟩
        (func ⟨none, none, none, false, true⟩).1
        (func ⟨none, none, none, false, true⟩).2] ∧
      ((func ⟨none, none, none, false, true⟩).1 = true →
        out.results = collectResults tr2 ∧ out.err = r2 ∧
        ∀ m, (func ⟨none, none, none, false, true⟩).2.return_value = some m →
          out.msg = m) ∧
      ((func ⟨none, none, none, false, true⟩).1 = false →
        out.err = KVTError.EXT_FUNC_ERROR ∧ out.results = []) := by
  have hcollect : res2 = collectResults tr2 :=
    rpLoop_done_collect ops tx table key_end limit param func fuel _ _ _ _ _ _ _ _ _
      _ _ _ _ hdone (by rfl)
  refine ⟨hcollect, ?_⟩
  unfold range_process
  rw [hdone]
  simp only []
  by_cases hf : (func ⟨none, none, none, false, true⟩).1 = false
  · rw [if_pos hf]
    refine ⟨_, rfl, by rw [hf], ?_, ?_⟩
    · intro ht
      rw [hf] at ht
      cases ht
    · intro _
      exact ⟨rfl, rfl⟩
  · rw [if_neg hf]
    rw [Bool.not_eq_false] at hf
    refine ⟨_, rfl, by rw [hf], ?_, ?_⟩
    · intro _
      refine ⟨hcollect ▸ rfl, rfl, ?_⟩
      intro m hm
      show (match (func ⟨none, none, none, false, true⟩).2.return_value with
        | some m => m
        | none => msg2) = m
      rw [hm]
    · intro hx
      rw [hf] at hx
      cases hx

/-- A callback that never mutates and returns `[88]` on every invocation,
the final `range_last` one included. -/
def constRetFunc : KVTProcessFunc := fun _ => (true, ⟨none, false, some [88]⟩)

/-- C6 counterexample: over the two-key store `{a → 1, b → 2}` with a
callback that produces a return value on every invocation, three
invocations produce a return value (two per-item ones and the final
`range_last` one), yet the result list has only the two per-item entries —
the final invocation's value goes to `error_msg` (`[88]`) instead, refuting
"one entry per callback invocation that produced a return_value, including
the final range_last invocation". -/
theorem range_process_final_value_not_in_results :
    (range_process 3 simpleStoreOps 0 1 [] [] 10 constRetFunc []
        [([97], [49]), ([98], [50])]).map
      (fun out => (out.results, out.err, out.msg,
        out.trace.countP (fun e =>
          match e with
          | PEvent.callEv _ _ o => o.return_value.isSome
          | _ => false)))
      = some ([([97], [88]), ([98], [88])], KVTError.SUCCESS, [88], 3) := by
  decide

/-- Closed witness for the amended range-process claim: the concrete loop
run over `{a → 1, b → 2}`. -/
theorem range_process_results_witness :
    ∃ out : RangeResult (List (List Nat × List Nat)),
      range_process 3 simpleStoreOps 0 1 [] [] 10 constRetFunc []
        [([97], [49]), ([98], [50])] = some out ∧
      out.results = [([97], [88]), ([98], [88])] ∧ out.msg = [88] := by
  obtain ⟨-, out, hout, -, hsucc, -⟩ :=
    range_process_results_and_final_callback simpleStoreOps 0 1 [] [] [] 10 3
      constRetFunc [([97], [49]), ([98], [50])]
      [([97], [49]), ([98], [50])] KVTError.SUCCESS [([97], [88]), ([98], [88])]
      false []
      [PEvent.scanEv 0 1 [] [] 10 KVTError.SUCCESS,
       PEvent.callEv ⟨some [97], some [49], some [], true, false⟩ true
         ⟨none, false, some [88]⟩,
       PEvent.callEv ⟨some [98], some [50], some [], false, false⟩ true
         ⟨none, false, some [88]⟩,
       PEvent.scanEv 0 1 [98, 0] [] 10 KVTError.SUCCESS]
      (by decide)
  obtain ⟨hres, -, hmsg⟩ := hsucc rfl
  exact ⟨out, hout, by rw [hres]; decide, hmsg [88] rfl⟩

/-! ## Batch execution (`KVTWrapper::batch_execute`, kvt_mem.h:990-1035) -/

/-- `enum KVT_OPType` of `kvt_inc.h`. -/
inductive KVT_OPType where
  | OP_UNKNOWN
  | OP_GET
  | OP_SET
  | OP_DEL
  deriving DecidableEq, Repr

structure KVTOp where
  op : KVT_OPType
  table_id : Nat
  key : List Nat
  value : List Nat
  deriving DecidableEq, Repr

structure KVTOpResult where
  error : KVTError
  value : List Nat
  deriving DecidableEq, Repr

/-- The switch of `batch_execute` over one operation: (new state, per-op
result, the op's error message). -/
def execOne {σ : Type} (ops : DataOps σ) (tx : Nat) (op : KVTOp) (s : σ) :
    σ × KVTOpResult × List Nat :=
  match op.op with
  | KVT_OPType.OP_GET =>
    let g := ops.get tx op.table_id op.key s
    (g.s, ⟨g.err, g.value⟩, g.msg)
  | KVT_OPType.OP_SET =>
    let r := ops.set tx op.table_id op.key op.value s
    (r.s, ⟨r.err, []⟩, r.msg)
  | KVT_OPType.OP_DEL =>
    let r := ops.del tx op.table_id op.key s
    (r.s, ⟨r.err, []⟩, r.msg)
  | KVT_OPType.OP_UNKNOWN =>
    (s, ⟨KVTError.UNKNOWN_ERROR, []⟩, strBytes "Unknown operation type")

structure BatchAcc (σ : Type) where
  s : σ
  results : List KVTOpResult
  all_success : Bool
  msg : List Nat

/-- The for-loop of `batch_execute`: every operation executes (no early
exit), one result is pushed per operation, the `all_success` flag drops on
any failure, and each failed op with a non-empty message contributes
`"op[i]: <message>; "` to the concatenated diagnostic. -/
def batchLoop {σ : Type} (ops : DataOps σ) (tx : Nat) :
    List KVTOp → Nat → σ → BatchAcc σ
  | [], _, s => ⟨s, [], true, []⟩
  | op :: rest, i, s =>
    let e := execOne ops tx op s
    let contrib :=
      if e.2.1.error ≠ KVTError.SUCCESS ∧ e.2.2 ≠ [] then
        strBytes ("op[" ++ toString i ++ "]: ") ++ e.2.2 ++ strBytes "; "
      else []
    let r := batchLoop ops tx rest (i + 1) e.1
    ⟨r.s, e.2.1 :: r.results, (e.2.1.error = KVTError.SUCCESS) && r.all_success,
      contrib ++ r.msg⟩

/-- `KVTWrapper::batch_execute`: returns (state, aggregate error, per-op
results, error message). -/
def batch_execute {σ : Type} (ops : DataOps σ) (tx : Nat) (batch : List KVTOp)
    (s : σ) : σ × KVTError × List KVTOpResult × List Nat :=
  if (batchLoop ops tx batch 0 s).all_success then
    ((batchLoop ops tx batch 0 s).s, KVTError.SUCCESS,
      (batchLoop ops tx batch 0 s).results, [])
  else
    ((batchLoop ops tx batch 0 s).s, KVTError.BATCH_NOT_FULLY_SUCCESS,
      (batchLoop ops tx batch 0 s).results, (batchLoop ops tx batch 0 s).msg)

/-- The state after executing a prefix of the batch, per the claim's words
("in order" on the running state). -/
def batchStateAt {σ : Type} (ops : DataOps σ) (tx : Nat) : List KVTOp → σ → σ
  | [], s => s
  | op :: rest, s => batchStateAt ops tx rest (execOne ops tx op s).1

/-- The concatenated diagnostic the claim describes: `"op[i]: <message>; "`
for each failed operation that produced a message. -/
def batchMsgSpec {σ : Type} (ops : DataOps σ) (tx : Nat) :
    List KVTOp → Nat → σ → List Nat
  | [], _, _ => []
  | op :: rest, i, s =>
    (if (execOne ops tx op s).2.1.error ≠ KVTError.SUCCESS ∧
        (execOne ops tx op s).2.2 ≠ [] then
      strBytes ("op[" ++ toString i ++ "]: ") ++ (execOne ops tx op s).2.2 ++
        strBytes "; "
    else []) ++ batchMsgSpec ops tx rest (i + 1) (execOne ops tx op s).1

theorem batchLoop_spec {σ : Type} (ops : DataOps σ) (tx : Nat)
    (batch : List KVTOp) :
    ∀ i s,
      (batchLoop ops tx batch i s).results.length = batch.length ∧
      ((batchLoop ops tx batch i s).all_success = true ↔
        ∀ r ∈ (batchLoop ops tx batch i s).results, r.error = KVTError.SUCCESS) ∧
      (batchLoop ops tx batch i s).msg = batchMsgSpec ops tx batch i s ∧
      (∀ j, j < batch.length →
        (batchLoop ops tx batch i s).results.getD j ⟨KVTError.UNKNOWN_ERROR, []⟩
          = (execOne ops tx (batch.getD j ⟨KVT_OPType.OP_UNKNOWN, 0, [], []⟩)
              (batchStateAt ops tx (batch.take j) s)).2.1) := by
  induction batch with
  | nil =>
    intro i s
    refine ⟨rfl, by simp [batchLoop], rfl, ?_⟩
    intro j hj
    simp at hj
  | cons op rest ih =>
    intro i s
    obtain ⟨ihlen, ihall, ihmsg, ihidx⟩ := ih (i + 1) (execOne ops tx op s).1
    refine ⟨?_, ?_, ?_, ?_⟩
    · simp [batchLoop, ihlen]
    · simp only [batchLoop, Bool.and_eq_true, decide_eq_true_eq, List.mem_cons]
      constructor
      · rintro ⟨h1, h2⟩ r (hr | hr)
        · rw [hr]; exact h1
        · exact ihall.mp h2 r hr
      · intro h
        exact ⟨h _ (Or.inl rfl), ihall.mpr (fun r hr => h r (Or.inr hr))⟩
    · simp only [batchLoop, batchMsgSpec, ihmsg]
    · intro j hj
      cases j with
      | zero => simp [batchLoop, batchStateAt]
      | succ j =>
        simp only [batchLoop, List.getD_cons_succ, List.length_cons] at hj ⊢
        rw [ihidx j (by omega)]
        rfl

/-- C8: `batch_execute` produces exactly one result per operation in order
(every operation executes on the state left by its predecessors, regardless
of earlier failures), returns `SUCCESS` iff every operation succeeded, and
otherwise returns `BATCH_NOT_FULLY_SUCCESS` with the concatenation of
`"op[i]: <message>; "` over the failed operations that produced a
message. -/
theorem batch_execute_contract {σ : Type} (ops : DataOps σ) (tx : Nat)
    (batch : List KVTOp) (s : σ) :
    (batch_execute ops tx batch s).2.2.1.length = batch.length ∧
    ((batch_execute ops tx batch s).2.1 = KVTError.SUCCESS ↔
      ∀ r ∈ (batch_execute ops tx batch s).2.2.1, r.error = KVTError.SUCCESS) ∧
    ((batch_execute ops tx batch s).2.1 ≠ KVTError.SUCCESS →
      (batch_execute ops tx batch s).2.1 = KVTError.BATCH_NOT_FULLY_SUCCESS ∧
      (batch_execute ops tx batch s).2.2.2 = batchMsgSpec ops tx batch 0 s) ∧
    (∀ j, j < batch.length →
      (batch_execute ops tx batch s).2.2.1.getD j ⟨KVTError.UNKNOWN_ERROR, []⟩
        = (execOne ops tx (batch.getD j ⟨KVT_OPType.OP_UNKNOWN, 0, [], []⟩)
            (batchStateAt ops tx (batch.take j) s)).2.1) := by
  obtain ⟨hlen, hall, hmsg, hidx⟩ := batchLoop_spec ops tx batch 0 s
  unfold batch_execute
  by_cases hs : (batchLoop ops tx batch 0 s).all_success = true
  · rw [if_pos hs]
    refine ⟨hlen, ?_, ?_, hidx⟩
    · simp only [true_iff]
      exact hall.mp hs
    · intro h
      exact absurd rfl h
  · rw [if_neg hs]
    refine ⟨hlen, ?_, fun _ => ⟨rfl, hmsg⟩, hidx⟩
    constructor
    · intro h
      cases h
    · intro h
      exact absurd (hall.mpr h) hs

/-- Closed witness: a three-op batch whose middle `get` fails on a missing
key still executes the final `set`, returns one result per op, and reports
`BATCH_NOT_FULLY_SUCCESS` with the indexed message of the failed op. -/
theorem batch_execute_witness :
    (batch_execute simpleStoreOps 0
        [⟨KVT_OPType.OP_SET, 1, [97], [49]⟩, ⟨KVT_OPType.OP_GET, 1, [98], []⟩,
         ⟨KVT_OPType.OP_SET, 1, [99], [51]⟩] []).2.2.1.length = 3 ∧
    ((batch_execute simpleStoreOps 0
        [⟨KVT_OPType.OP_SET, 1, [97], [49]⟩, ⟨KVT_OPType.OP_GET, 1, [98], []⟩,
         ⟨KVT_OPType.OP_SET, 1, [99], [51]⟩] []).2.1 = KVTError.BATCH_NOT_FULLY_SUCCESS ∧
      (batch_execute simpleStoreOps 0
        [⟨KVT_OPType.OP_SET, 1, [97], [49]⟩, ⟨KVT_OPType.OP_GET, 1, [98], []⟩,
         ⟨KVT_OPType.OP_SET, 1, [99], [51]⟩] []).2.2.2
        = batchMsgSpec simpleStoreOps 0
            [⟨KVT_OPType.OP_SET, 1, [97], [49]⟩, ⟨KVT_OPType.OP_GET, 1, [98], []⟩,
             ⟨KVT_OPType.OP_SET, 1, [99], [51]⟩] 0 []) ∧
    (batch_execute simpleStoreOps 0
        [⟨KVT_OPType.OP_SET, 1, [97], [49]⟩, ⟨KVT_OPType.OP_GET, 1, [98], []⟩,
         ⟨KVT_OPType.OP_SET, 1, [99], [51]⟩] []).2.2.1.getD 2 ⟨KVTError.UNKNOWN_ERROR, []⟩
      = ⟨KVTError.SUCCESS, []⟩ :=
  ⟨(batch_execute_contract simpleStoreOps 0 _ []).1,
   (batch_execute_contract simpleStoreOps 0 _ []).2.2.1 (by decide),
   ((batch_execute_contract simpleStoreOps 0 _ []).2.2.2 2 (by decide)).trans
     (by decide)⟩

end KVT
